import Mathlib

/-!
# DNP3 segment reassembly (`src/DNP3.cc`)

A shallow embedding of `DNP3_Analyzer::DNP3_Reassembler` and
`DNP3_Analyzer::DeliverStream`.

* A chunk `data` of `len` bytes is a `List Nat`; `len` is `data.length`.
* The buffer `gDNP3Data` is its storage `mData` (a list whose length is the
  number of bytes allocated) and the counter `length`.
* Every read of `data[k]` and every write of `mData[k]` is checked: an access
  outside the chunk or outside the allocated storage yields `none`, the
  model of undefined behaviour.  A result `some r` is a run of the C code in
  which every access was in range.
* `Weird(name)` is recorded in the `weird` field of the result.
* The C `int` quantities are natural numbers.  This is exact as long as
  `length + len` stays below `2 ^ 31`: beyond that the `int` sum
  `len + aTempFormerLen` of the continuation branch overflows in the source.
  A theorem that ranges over buffers of any length assumes that bound.
  `length - 2`, which may be negative, is computed in `Int`.
-/

namespace DNP3

/-! ## The buffer `gDNP3Data` -/

/-- The byte stream `gDNP3Data`: allocated storage and count of valid bytes. -/
structure StrByteStream where
  mData : List Nat
  length : Nat
deriving DecidableEq

/-- Modelled from the spec: `Clear` is declared in `DNP3.h`, which is not among
the sources.  The spec says the buffer is cleared, and that an empty buffer has
`length == 0`; the storage is released. -/
def StrByteStream.Clear (_b : StrByteStream) : StrByteStream :=
  { mData := [], length := 0 }

/-- Modelled from the spec: `Reserve` is declared in `DNP3.h`, which is not
among the sources.  The spec says: "ensure fragment buffer has at least `len`
bytes of spare capacity".  The valid bytes and `length` are kept, and the
storage is extended (by bytes shown as `0`) until `len` bytes follow the valid
ones. -/
def StrByteStream.Reserve (b : StrByteStream) (len : Nat) : StrByteStream :=
  { b with mData := b.mData ++ List.replicate (b.length + len - b.mData.length) 0 }

/-- The valid part of the buffer, `mData[0 .. length)`: what
`interp->NewData(m_orig, mData, mData + length)` hands on. -/
def StrByteStream.valid (b : StrByteStream) : List Nat :=
  b.mData.take b.length

/-- The state of a `DNP3_Analyzer` that the reassembler reads and writes. -/
structure Analyzer where
  gDNP3Data : StrByteStream
  mEncounteredFirst : Bool
deriving DecidableEq

/-- The analyzer as constructed: `mEncounteredFirst = false`, empty buffer. -/
def Analyzer.init : Analyzer :=
  { gDNP3Data := { mData := [], length := 0 }, mEncounteredFirst := false }

/-! ## Memory accesses -/

/-- The assignment `buf[k] = v`; `none` when `k` is outside the storage. -/
def store (buf : List Nat) (k v : Nat) : Option (List Nat) :=
  if k < buf.length then some (buf.set k v) else none

/-- The call `memcpy(dst, src, n)`; `none` when either side has fewer than `n`
bytes. -/
def memcpy (dst src : List Nat) (n : Nat) : Option (List Nat) :=
  if n ≤ dst.length ∧ n ≤ src.length then some (src.take n ++ dst.drop n) else none

/-- Conversion of an `int` to `u_char` on assignment. -/
def toUChar (x : Int) : Nat := (x % 256).toNat

/-! ## The extraction loop -/

/-- The condition of the `if` in the extraction loop: position `i` (counted
from offset 10) of a chunk of `len` bytes is copied. -/
def copied (len i : Nat) : Bool :=
  decide (i % 18 ≠ 16) && decide (i % 18 ≠ 17) && decide (len - 10 - i > 2) && decide (i ≠ 0)

/-- The loop `for (i = 0; i < len - 10; i++) if (...) { buf[dnp3_i + off] =
data[i + 10]; dnp3_i++; }`, which the source repeats in its three branches
(`off` is `8` or `aTempFormerLen`).  The first argument counts the iterations
left, `i` and `dnp3_i` are the loop variables; the result is the final
`dnp3_i` and the storage. -/
def extractLoop (data : List Nat) (len off : Nat) :
    Nat → Nat → Nat → List Nat → Option (Nat × List Nat)
  | 0, _, dnp3_i, buf => some (dnp3_i, buf)
  | k + 1, i, dnp3_i, buf =>
    if copied len i then
      (data[i + 10]?).bind fun b =>
      (store buf (dnp3_i + off) b).bind fun buf2 =>
      extractLoop data len off k (i + 1) (dnp3_i + 1) buf2
    else
      extractLoop data len off k (i + 1) dnp3_i buf

/-! ## `DNP3_Reassembler` -/

/-- What one call of `DNP3_Reassembler` produces: the returned `int`, the
names passed to `Weird`, and the analyzer state afterwards. -/
structure Result where
  ret : Int
  weird : List String
  st : Analyzer
deriving DecidableEq

/-- The bit `aTranFir = (data[10] & 0x40) >> 6` of the transport byte `t`. -/
def aTranFir (t : Nat) : Nat := (t &&& 0x40) >>> 6

/-- The bit `aTranFin = (data[10] & 0x80) >> 7` of the transport byte `t`. -/
def aTranFin (t : Nat) : Nat := (t &&& 0x80) >>> 7

/-- The branch `if ((aTranFir == 1) && (aTranFin == 0))` (lines 160-205). -/
def firstSegment (s : Analyzer) (data : List Nat) : Option Result :=
  let len := data.length
  -- mEncounteredFirst = true;
  if len ≠ 292 then
    some ⟨-4, ["dnp3_unexpected_payload_size"], { s with mEncounteredFirst := true }⟩
  else
    (memcpy s.gDNP3Data.mData data 8).bind fun m1 =>
    (extractLoop data len 8 (len - 10) 0 0 m1).bind fun out =>
    some ⟨1, [], { gDNP3Data := { mData := out.2, length := out.1 + 8 },
                   mEncounteredFirst := true }⟩

/-- The branch `if (aTranFir == 0)` (lines 210-280); `fin` is `aTranFin`.
The sums `len + aTempFormerLen` and `dnp3_i + aTempFormerLen` are `int` in the
source and natural numbers here, which agree while
`len + aTempFormerLen < 2 ^ 31`. -/
def continuation (s : Analyzer) (data : List Nat) (fin : Nat) : Option Result :=
  let len := data.length
  if s.mEncounteredFirst = false then
    some ⟨-5, ["dnp3_first_transport_sgement_missing"], s⟩
  else
    let aTempFormerLen := s.gDNP3Data.length
    if fin = 0 ∧ len ≠ 292 then
      some ⟨-6, ["unexpected_payload_length"], s⟩
    else
      -- aTempResult = new u_char[len + aTempFormerLen]; fresh bytes shown as 0
      (memcpy (List.replicate (len + aTempFormerLen) 0) s.gDNP3Data.mData
          aTempFormerLen).bind fun aTempResult =>
      (extractLoop data len aTempFormerLen (len - 10) 0 0 aTempResult).bind fun out =>
      let length := out.1 + aTempFormerLen
      if fin = 1 then
        -- mEncounteredFirst = false;
        if length ≥ 65536 then
          some ⟨-7, ["dnp3_data_exceeds_65K"],
            { gDNP3Data := StrByteStream.Clear { mData := out.2, length := length },
              mEncounteredFirst := false }⟩
        else
          (store out.2 2 (toUChar (Int.tmod ((length : Int) - 2) 0x100))).bind fun m2 =>
          (store m2 3 (toUChar (Int.land ((length : Int) - 2) 0xFF00 >>> (8 : Nat)))).bind fun m3 =>
          some ⟨0, [], { gDNP3Data := { mData := m3, length := length },
                         mEncounteredFirst := false }⟩
      else
        some ⟨1, [], { gDNP3Data := { mData := out.2, length := length },
                       mEncounteredFirst := s.mEncounteredFirst }⟩

/-- The branch `if ((aTranFir == 1) && (aTranFin == 1))` (lines 284-333),
followed by the final `return 0`. -/
def singlePacket (s : Analyzer) (data : List Nat) : Option Result :=
  let len := data.length
  let g := if s.mEncounteredFirst = true
    then (StrByteStream.Clear s.gDNP3Data).Reserve len else s.gDNP3Data
  let w := if s.mEncounteredFirst = true then ["dnp3_missing_finish_packet"] else []
  (memcpy g.mData data 8).bind fun m1 =>
  (extractLoop data len 8 (len - 10) 0 0 m1).bind fun out =>
  (store out.2 3 0).bind fun m3 =>
  some ⟨0, w, { gDNP3Data := { mData := m3, length := out.1 + 8 },
                mEncounteredFirst := false }⟩

/-- The function `DNP3_Analyzer::DNP3_Reassembler(len, data, orig)`, with `len =
data.length`; `orig` is not used by the body. -/
def DNP3_Reassembler (s : Analyzer) (data : List Nat) : Option Result :=
  (data[0]?).bind fun d0 =>
  if d0 ≠ 0x05 then some ⟨-1, [], s⟩ else
  (data[1]?).bind fun d1 =>
  if d1 ≠ 0x64 then some ⟨-1, [], s⟩ else
  (data[3]?).bind fun control_field =>
  if control_field &&& 0x0F ≠ 0x03 ∧ control_field &&& 0x0F ≠ 0x04 then some ⟨-2, [], s⟩ else
  (data[10]?).bind fun t =>
  if aTranFir t = 1 ∧ aTranFin t = 0 then firstSegment s data
  else if aTranFir t = 0 then continuation s data (aTranFin t)
  else if aTranFir t = 1 ∧ aTranFin t = 1 then singlePacket s data
  else some ⟨0, [], s⟩

/-! ## `DeliverStream` -/

/-- What one call of `DeliverStream` produces: the calls of
`interp->NewData(m_orig, bytes)` it made, the names passed to `Weird`, and the
analyzer state afterwards. -/
structure Delivery where
  forwarded : List (Bool × List Nat)
  weird : List String
  st : Analyzer
deriving DecidableEq

/-- The function `DNP3_Analyzer::DeliverStream(len, data, orig)`.  The value
returned by `DNP3_Reassembler` is not looked at. -/
def DeliverStream (s : Analyzer) (data : List Nat) : Option Delivery :=
  let s1 : Analyzer := { s with gDNP3Data := s.gDNP3Data.Reserve data.length }
  (DNP3_Reassembler s1 data).bind fun r =>
  (data[3]?).bind fun c =>
  let m_orig : Bool := (c &&& 0x80) == 0x80
  some { forwarded := [(m_orig, r.st.gDNP3Data.valid)],
         weird := r.weird,
         st := { r.st with gDNP3Data := r.st.gDNP3Data.Clear } }

/-- Feeding a sequence of chunks to `DNP3_Reassembler`, one call per chunk and
nothing in between; the returned codes in order and the last state. -/
def feed : Analyzer → List (List Nat) → Option (List Int × Analyzer)
  | s, [] => some ([], s)
  | s, p :: ps =>
    (DNP3_Reassembler s p).bind fun r =>
    (feed r.st ps).bind fun out => some (r.ret :: out.1, out.2)

/-! ## What the extraction loop copies -/

/-- The storage `buf` after the bytes `bs` were written at positions `p`,
`p + 1`, ... -/
def overwrite (buf : List Nat) (p : Nat) (bs : List Nat) : List Nat :=
  buf.take p ++ bs ++ buf.drop (p + bs.length)

/-- The positions (counted from offset 10) that the extraction loop copies
while `i` runs over `[i, i + k)`. -/
def copiedIdx (len i k : Nat) : List Nat :=
  (List.range' i k).filter (copied len)

/-- The bytes that the extraction loop copies while `i` runs over
`[i, i + k)`. -/
def copiedBytes (data : List Nat) (i k : Nat) : List Nat :=
  (copiedIdx data.length i k).map fun j => data.getD (j + 10) 0

/-- The payload of a chunk in the words of the spec: the bytes `p[10 + i]` with
`1 ≤ i < len(p) - 12` and `i mod 18` not in `{16, 17}`, in increasing `i`. -/
def strip (p : List Nat) : List Nat :=
  ((List.range (p.length - 12)).filter fun i =>
    decide (1 ≤ i) && decide (i % 18 ≠ 16) && decide (i % 18 ≠ 17)).map
    fun i => p.getD (10 + i) 0

/-- The loop's selection, walking a list whose head sits at position `i`
(counted from offset 10) of a chunk of `len` bytes. -/
def keptWalk (len : Nat) : Nat → List Nat → List Nat
  | _, [] => []
  | i, x :: xs => if copied len i then x :: keptWalk len (i + 1) xs else keptWalk len (i + 1) xs

/-! ## Vocabulary of the claims -/

/-- A chunk that passes the link-layer checks and carries a transport byte:
at least 11 bytes, sync bytes `0x05 0x64`, and the low four bits of the
control byte (byte 3) equal to 3 or 4. -/
def headerValid (data : List Nat) : Prop :=
  11 ≤ data.length ∧ data.getD 0 0 = 0x05 ∧ data.getD 1 0 = 0x64 ∧
    (data.getD 3 0 % 16 = 3 ∨ data.getD 3 0 % 16 = 4)

instance (data : List Nat) : Decidable (headerValid data) := by
  unfold headerValid; infer_instance

/-- The FIR bit of a chunk, as the code computes it from byte 10. -/
def fir (data : List Nat) : Nat := aTranFir (data.getD 10 0)

/-- The FIN bit of a chunk, as the code computes it from byte 10. -/
def fin (data : List Nat) : Nat := aTranFin (data.getD 10 0)

/-- The chunk fails the sync check. -/
def badSync (data : List Nat) : Prop :=
  data.getD 0 0 ≠ 0x05 ∨ data.getD 1 0 ≠ 0x64

/-- The low four bits of the control byte are neither 3 nor 4. -/
def badFunction (data : List Nat) : Prop :=
  data.getD 3 0 % 16 ≠ 3 ∧ data.getD 3 0 % 16 ≠ 4

instance (data : List Nat) : Decidable (badSync data) := by
  unfold badSync; infer_instance

instance (data : List Nat) : Decidable (badFunction data) := by
  unfold badFunction; infer_instance

/-- A header-valid first segment: FIR = 1, FIN = 0, 292 bytes. -/
def isFirst (p : List Nat) : Prop :=
  headerValid p ∧ fir p = 1 ∧ fin p = 0 ∧ p.length = 292

/-- A header-valid middle segment: FIR = 0, FIN = 0, 292 bytes. -/
def isMiddle (p : List Nat) : Prop :=
  headerValid p ∧ fir p = 0 ∧ fin p = 0 ∧ p.length = 292

/-- A header-valid final segment: FIR = 0, FIN = 1. -/
def isFinal (p : List Nat) : Prop :=
  headerValid p ∧ fir p = 0 ∧ fin p = 1

/-- A header-valid single-packet fragment: FIR = 1, FIN = 1. -/
def isSingle (p : List Nat) : Prop :=
  headerValid p ∧ fir p = 1 ∧ fin p = 1

instance (p : List Nat) : Decidable (isFirst p) := by
  unfold isFirst; infer_instance

instance (p : List Nat) : Decidable (isMiddle p) := by
  unfold isMiddle; infer_instance

instance (p : List Nat) : Decidable (isFinal p) := by
  unfold isFinal; infer_instance

instance (p : List Nat) : Decidable (isSingle p) := by
  unfold isSingle; infer_instance

/-- The buffer is consistent: the valid bytes lie within the storage. -/
def Analyzer.wf (s : Analyzer) : Prop :=
  s.gDNP3Data.length ≤ s.gDNP3Data.mData.length

instance (s : Analyzer) : Decidable s.wf := by
  unfold Analyzer.wf; infer_instance

/-- The buffer of `s` holds the header of the packet `q`: at least 8 valid
bytes inside the storage, and bytes 0, 1, 4, 5, 6, 7 equal to those of `q`. -/
def holdsHeader (q : List Nat) (s : Analyzer) : Prop :=
  8 ≤ s.gDNP3Data.length ∧ s.wf ∧
    ∀ i ∈ [0, 1, 4, 5, 6, 7], s.gDNP3Data.valid.getD i 0 = q.getD i 0

/-- The analyzer as constructed, after `gDNP3Data.Reserve(len)` as
`DeliverStream` calls it before the reassembler. -/
def Analyzer.reserved (len : Nat) : Analyzer :=
  { Analyzer.init with gDNP3Data := Analyzer.init.gDNP3Data.Reserve len }

/-- The byte stored in `mData[2]` at finalisation for a fragment of `length`
bytes: `(length - 2) % 0x100` converted to `u_char`. -/
def encLow (length : Nat) : Nat :=
  toUChar (Int.tmod ((length : Int) - 2) 0x100)

/-- The byte stored in `mData[3]` at finalisation for a fragment of `length`
bytes: `((length - 2) & 0xFF00) >> 8` converted to `u_char`. -/
def encHigh (length : Nat) : Nat :=
  toUChar (Int.land ((length : Int) - 2) 0xFF00 >>> (8 : Nat))

/-! ## The block layout of a chunk -/

/-- One data block of a chunk: its data bytes and the two bytes of its
integrity trailer. -/
structure Block where
  data : List Nat
  crc1 : Nat
  crc2 : Nat
deriving DecidableEq

/-- The bytes of a sequence of blocks on the wire: each block's data followed
by its two trailer bytes. -/
def layout : List Block → List Nat
  | [] => []
  | b :: bs => b.data ++ [b.crc1, b.crc2] ++ layout bs

/-- The data bytes of a sequence of blocks, trailers left out. -/
def userData : List Block → List Nat
  | [] => []
  | b :: bs => b.data ++ userData bs

/-- The blocks of one chunk: every block but the last holds exactly 16 data
bytes, and the last holds 1 to 16. -/
def wellFramed : List Block → Prop
  | [] => False
  | b :: bs =>
    match bs with
    | [] => 1 ≤ b.data.length ∧ b.data.length ≤ 16
    | _ :: _ => b.data.length = 16 ∧ wellFramed bs

/-! ## Sample chunks -/

/-- A sample link header: sync bytes, length byte, control `0xC4`, addresses,
header trailer. -/
def exHeader : List Nat := [0x05, 0x64, 0x0B, 0xC4, 0x01, 0x00, 0x02, 0x00, 0xAA, 0xBB]

/-- A sample single block: transport byte `0xC0` (FIR and FIN) and three
application bytes. -/
def exBlocks : List Block := [⟨[0xC0, 1, 2, 3], 0x11, 0x22⟩]

/-- A sample chunk of `n + 11` bytes with transport byte `t`. -/
def exChunk (t n : Nat) : List Nat := exHeader ++ t :: List.replicate n 7

/-- A sample first segment: 292 bytes, FIR = 1, FIN = 0. -/
def exFirst : List Nat := exChunk 0x40 281

/-- A sample middle segment: 292 bytes, FIR = 0, FIN = 0. -/
def exMiddle : List Nat := exChunk 0x00 281

/-- A sample final segment: 50 bytes, FIR = 0, FIN = 1. -/
def exFinal : List Nat := exChunk 0x80 39

/-- A sample single-packet fragment of 50 bytes: FIR = 1, FIN = 1. -/
def exSingle : List Nat := exChunk 0xC0 39

/-- A sample chunk of 11 bytes with FIR = 1 and FIN = 0: a first segment of
the wrong size. -/
def exShortFirst : List Nat := exChunk 0x40 0

/-- A sample chunk of 11 bytes with FIR = 0 and FIN = 0. -/
def exShortMiddle : List Nat := exChunk 0x00 0

/-- A sample chunk of 11 bytes with FIR = 0 and FIN = 1: a final segment
without payload. -/
def exShortFinal : List Nat := exChunk 0x80 0

/-- A sample analyzer with `n` bytes of storage, empty buffer, idle. -/
def exIdle (n : Nat) : Analyzer :=
  { gDNP3Data := { mData := List.replicate n 0, length := 0 }, mEncounteredFirst := false }

/-- A sample analyzer awaiting continuation with `n` valid bytes. -/
def exAwaiting (n : Nat) : Analyzer :=
  { gDNP3Data := { mData := List.replicate n 0, length := n }, mEncounteredFirst := true }

/-- A sample final segment of 50 bytes whose control byte `0x44` has bit 7
clear: FIR = 0, FIN = 1. -/
def exFinalLow : List Nat :=
  [0x05, 0x64, 0x0B, 0x44, 0x01, 0x00, 0x02, 0x00, 0xAA, 0xBB, 0x80] ++ List.replicate 39 7

/-- The analyzer that `DeliverStream` leaves behind after a first segment: the
buffer cleared, `mEncounteredFirst` still set. -/
def exCleared : Analyzer :=
  { gDNP3Data := { mData := [], length := 0 }, mEncounteredFirst := true }

/-! ## Writing a run of bytes into the storage -/

theorem overwrite_nil (buf : List Nat) (p : Nat) : overwrite buf p [] = buf := by
  simp [overwrite]

theorem overwrite_set (buf : List Nat) (p b : Nat) (bs : List Nat) (h : p < buf.length) :
    overwrite (buf.set p b) (p + 1) bs = overwrite buf p (b :: bs) := by
  induction buf generalizing p with
  | nil => simp at h
  | cons x xs ih =>
    cases p with
    | zero =>
      simp only [overwrite, List.set_cons_zero, List.take_succ_cons, List.take_zero,
        List.length_cons, List.nil_append, List.cons_append, Nat.zero_add]
      rw [Nat.add_comm 1 bs.length]
      simp
    | succ q =>
      have hq : q < xs.length := by simpa using h
      have := ih q hq
      simp only [overwrite, List.length_cons] at this ⊢
      have e1 : q + 1 + 1 + bs.length = (q + 1 + bs.length) + 1 := by omega
      have e2 : q + 1 + (bs.length + 1) = (q + (bs.length + 1)) + 1 := by omega
      rw [e1, e2]
      simp only [List.set_cons_succ, List.take_succ_cons, List.drop_succ_cons, List.cons_append]
      rw [this]

theorem length_overwrite (buf : List Nat) (p : Nat) (bs : List Nat)
    (h : p + bs.length ≤ buf.length) : (overwrite buf p bs).length = buf.length := by
  simp only [overwrite, List.length_append, List.length_take, List.length_drop]
  omega

theorem copiedIdx_succ (len i k : Nat) :
    copiedIdx len i (k + 1) =
      if copied len i then i :: copiedIdx len (i + 1) k else copiedIdx len (i + 1) k := by
  simp only [copiedIdx, List.range'_succ, List.filter_cons]

theorem length_copiedBytes (data : List Nat) (i k : Nat) :
    (copiedBytes data i k).length = (copiedIdx data.length i k).length := by
  simp [copiedBytes]

/-- The extraction loop, when every access is in range, leaves `dnp3_i`
advanced by the number of copied positions and the copied bytes written from
`dnp3_i + off` on. -/
theorem extractLoop_eq (data : List Nat) (off : Nat) :
    ∀ (k i d : Nat) (buf : List Nat), i + k + 10 ≤ data.length →
      d + off + (copiedIdx data.length i k).length ≤ buf.length →
      extractLoop data data.length off k i d buf =
        some (d + (copiedIdx data.length i k).length,
              overwrite buf (d + off) (copiedBytes data i k)) := by
  intro k
  induction k with
  | zero =>
    intro i d buf _ _
    simp [extractLoop, copiedIdx, copiedBytes, overwrite_nil]
  | succ k ih =>
    intro i d buf hlen hcap
    rw [extractLoop]
    by_cases hc : copied data.length i = true
    · have hidx : copiedIdx data.length i (k + 1) = i :: copiedIdx data.length (i + 1) k := by
        rw [copiedIdx_succ, if_pos hc]
      have hbytes : copiedBytes data i (k + 1) =
          data.getD (i + 10) 0 :: copiedBytes data (i + 1) k := by
        simp [copiedBytes, hidx]
      rw [hidx] at hcap
      simp only [List.length_cons] at hcap
      have hi : i + 10 < data.length := by omega
      have hst : d + off < buf.length := by omega
      rw [if_pos hc, List.getElem?_eq_getElem hi]
      simp only [Option.some_bind, store, if_pos hst]
      rw [ih (i + 1) (d + 1) (buf.set (d + off) data[i + 10]) (by omega)
        (by rw [List.length_set]; omega)]
      rw [hidx, hbytes]
      have e : d + 1 + off = d + off + 1 := by omega
      rw [e, overwrite_set _ _ _ _ hst]
      simp only [List.length_cons, List.getD_eq_getElem?_getD, List.getElem?_eq_getElem hi,
        Option.getD_some]
      congr 2
      omega
    · have hidx : copiedIdx data.length i (k + 1) = copiedIdx data.length (i + 1) k := by
        rw [copiedIdx_succ, if_neg hc]
      have hbytes : copiedBytes data i (k + 1) = copiedBytes data (i + 1) k := by
        simp [copiedBytes, hidx]
      rw [if_neg hc, ih (i + 1) d buf (by omega) (by rw [← hidx]; exact hcap), hidx, hbytes]

theorem filter_range_lt (q : Nat → Bool) (m n : Nat) (h : m ≤ n) :
    (List.range n).filter (fun i => decide (i < m) && q i) = (List.range m).filter q := by
  obtain ⟨d, rfl⟩ := Nat.exists_eq_add_of_le h
  rw [List.range_add, List.filter_append]
  have h1 : (List.range m).filter (fun i => decide (i < m) && q i) = (List.range m).filter q := by
    apply List.filter_congr
    intro x hx
    simp [List.mem_range.mp hx]
  have h2 : ((List.range d).map (m + ·)).filter (fun i => decide (i < m) && q i) = [] := by
    rw [List.filter_eq_nil_iff]
    intro a ha
    obtain ⟨b, _, rfl⟩ := List.mem_map.mp ha
    simp
  rw [h1, h2, List.append_nil]

theorem copied_eq (len i : Nat) :
    copied len i = (decide (i < len - 12) &&
      (decide (1 ≤ i) && decide (i % 18 ≠ 16) && decide (i % 18 ≠ 17))) := by
  rw [Bool.eq_iff_iff]
  simp only [copied, Bool.and_eq_true, decide_eq_true_eq]
  omega

/-- The bytes the loop copies from a whole chunk are the payload as the spec
words it. -/
theorem copiedBytes_eq_strip (data : List Nat) :
    copiedBytes data 0 (data.length - 10) = strip data := by
  have hidx : copiedIdx data.length 0 (data.length - 10) =
      (List.range (data.length - 12)).filter fun i =>
        decide (1 ≤ i) && decide (i % 18 ≠ 16) && decide (i % 18 ≠ 17) := by
    rw [copiedIdx, ← List.range_eq_range', ← filter_range_lt _ (data.length - 12)
      (data.length - 10) (by omega)]
    apply List.filter_congr
    intro x _
    exact copied_eq data.length x
  simp only [copiedBytes, hidx, strip]
  apply List.map_congr_left
  intro a _
  rw [Nat.add_comm]

theorem length_copiedIdx_le (len : Nat) :
    ∀ (k i : Nat), (copiedIdx len i k).length ≤ min (i + k) (len - 12) - max i 1 := by
  intro k
  induction k with
  | zero => intro i; simp [copiedIdx]
  | succ k ih =>
    intro i
    rw [copiedIdx_succ]
    have := ih (i + 1)
    by_cases hc : copied len i = true
    · rw [if_pos hc]
      have hc2 := hc
      rw [copied_eq] at hc2
      simp only [Bool.and_eq_true, decide_eq_true_eq] at hc2
      simp only [List.length_cons]
      omega
    · rw [if_neg hc]
      omega

/-- A chunk of `len` bytes yields at most `len - 13` payload bytes. -/
theorem length_strip_le (data : List Nat) : (strip data).length ≤ data.length - 13 := by
  rw [← copiedBytes_eq_strip, length_copiedBytes]
  have := length_copiedIdx_le data.length (data.length - 10) 0
  omega

set_option maxRecDepth 20000 in
/-- A chunk of 292 bytes yields 249 payload bytes. -/
theorem length_strip_292 (data : List Nat) (h : data.length = 292) :
    (strip data).length = 249 := by
  rw [← copiedBytes_eq_strip, length_copiedBytes, h]
  decide

/-- The extraction loop over a whole chunk: it copies the payload `strip data`
to `off`, `off + 1`, ... provided the storage reaches that far. -/
theorem extractLoop_strip (data : List Nat) (off : Nat) (buf : List Nat)
    (hcap : off + (strip data).length ≤ buf.length) :
    extractLoop data data.length off (data.length - 10) 0 0 buf =
      some ((strip data).length, overwrite buf off (strip data)) := by
  by_cases h10 : 10 ≤ data.length
  · have hc : (copiedIdx data.length 0 (data.length - 10)).length = (strip data).length := by
      rw [← length_copiedBytes, copiedBytes_eq_strip]
    rw [extractLoop_eq data off (data.length - 10) 0 0 buf (by omega) (by omega),
      copiedBytes_eq_strip, hc]
    simp
  · have h0 : data.length - 10 = 0 := by omega
    have hs : strip data = [] := by
      have := length_strip_le data
      exact List.length_eq_zero.mp (by omega)
    rw [h0, hs]
    simp [extractLoop, overwrite_nil]

/-! ## The checks at the head of `DNP3_Reassembler` -/

theorem read_eq (data : List Nat) (i : Nat) (h : i < data.length) :
    data[i]? = some (data.getD i 0) := by
  simp [List.getElem?_eq_getElem h]

theorem and_0F (c : Nat) : c &&& 0x0F = c % 16 :=
  Nat.and_pow_two_sub_one_eq_mod c 4

theorem aTranFir_cases (t : Nat) : aTranFir t = 0 ∨ aTranFir t = 1 := by
  have h : t &&& 0x40 ≤ 0x40 := Nat.and_le_right
  have h2 : aTranFir t = (t &&& 0x40) / 2 ^ 6 := Nat.shiftRight_eq_div_pow _ _
  omega

theorem aTranFin_cases (t : Nat) : aTranFin t = 0 ∨ aTranFin t = 1 := by
  have h : t &&& 0x80 ≤ 0x80 := Nat.and_le_right
  have h2 : aTranFin t = (t &&& 0x80) / 2 ^ 7 := Nat.shiftRight_eq_div_pow _ _
  omega

/-- Past the link-layer checks the reassembler dispatches on FIR and FIN. -/
theorem reassembler_dispatch (s : Analyzer) (data : List Nat) (hv : headerValid data) :
    DNP3_Reassembler s data =
      if fir data = 1 ∧ fin data = 0 then firstSegment s data
      else if fir data = 0 then continuation s data (fin data)
      else if fir data = 1 ∧ fin data = 1 then singlePacket s data
      else some ⟨0, [], s⟩ := by
  obtain ⟨hlen, h0, h1, h3⟩ := hv
  have e3 : ¬ (data.getD 3 0 &&& 0x0F ≠ 0x03 ∧ data.getD 3 0 &&& 0x0F ≠ 0x04) := by
    rw [and_0F]; omega
  unfold DNP3_Reassembler
  rw [read_eq data 0 (by omega), read_eq data 1 (by omega), read_eq data 3 (by omega),
    read_eq data 10 (by omega)]
  simp only [Option.some_bind, h0, h1, ne_eq, not_true_eq_false, if_false, if_neg e3]
  rfl

theorem reassembler_first (s : Analyzer) (data : List Nat) (hv : headerValid data)
    (h1 : fir data = 1) (h0 : fin data = 0) :
    DNP3_Reassembler s data = firstSegment s data := by
  rw [reassembler_dispatch s data hv, if_pos ⟨h1, h0⟩]

theorem reassembler_cont (s : Analyzer) (data : List Nat) (hv : headerValid data)
    (h1 : fir data = 0) :
    DNP3_Reassembler s data = continuation s data (fin data) := by
  rw [reassembler_dispatch s data hv, if_neg (by omega), if_pos h1]

theorem reassembler_single (s : Analyzer) (data : List Nat) (hv : headerValid data)
    (h1 : fir data = 1) (h0 : fin data = 1) :
    DNP3_Reassembler s data = singlePacket s data := by
  rw [reassembler_dispatch s data hv, if_neg (by omega), if_neg (by omega), if_pos ⟨h1, h0⟩]

/-! ## The three branches -/

theorem overwrite_header (data buf bs : List Nat) (hd : 8 ≤ data.length) :
    overwrite (data.take 8 ++ buf.drop 8) 8 bs =
      data.take 8 ++ bs ++ buf.drop (8 + bs.length) := by
  have hl : (data.take 8).length = 8 := by simp; omega
  have hdrop : (data.take 8 ++ buf.drop 8).drop (8 + bs.length) = buf.drop (8 + bs.length) := by
    have := @List.drop_append _ (data.take 8) (buf.drop 8) bs.length
    rw [hl] at this
    rw [this, List.drop_drop]
  unfold overwrite
  rw [List.take_left' hl, hdrop]

theorem overwrite_append (v pad bs : List Nat) :
    overwrite (v ++ pad) v.length bs = v ++ bs ++ pad.drop bs.length := by
  unfold overwrite
  rw [List.take_left, List.drop_append]

/-- The first-segment branch on a chunk of 292 bytes, with storage for it. -/
theorem firstSegment_eq (s : Analyzer) (data : List Nat) (hlen : data.length = 292)
    (hcap : 292 ≤ s.gDNP3Data.mData.length) :
    firstSegment s data = some ⟨1, [],
      { gDNP3Data := { mData := data.take 8 ++ strip data ++ s.gDNP3Data.mData.drop 257,
                       length := 257 },
        mEncounteredFirst := true }⟩ := by
  have hs := length_strip_292 data hlen
  unfold firstSegment memcpy
  simp only [hlen, ne_eq, not_true_eq_false, if_false]
  rw [if_pos (by omega)]
  simp only [Option.some_bind]
  rw [← hlen, extractLoop_strip data 8 _ (by simp; omega)]
  simp only [Option.some_bind]
  rw [overwrite_header data _ _ (by omega), hs]

/-- The single-packet branch, with storage for the chunk. -/
theorem singlePacket_eq (s : Analyzer) (data : List Nat) (hlen : 11 ≤ data.length)
    (hcap : s.mEncounteredFirst = false → data.length ≤ s.gDNP3Data.mData.length) :
    ∃ rest, singlePacket s data = some ⟨0,
      if s.mEncounteredFirst = true then ["dnp3_missing_finish_packet"] else [],
      { gDNP3Data := { mData := (data.take 8 ++ strip data ++ rest).set 3 0,
                       length := (strip data).length + 8 },
        mEncounteredFirst := false }⟩ := by
  have hs := length_strip_le data
  unfold singlePacket memcpy
  simp only []
  generalize hg : (if s.mEncounteredFirst = true
    then (StrByteStream.Clear s.gDNP3Data).Reserve data.length else s.gDNP3Data) = g
  have hgcap : data.length ≤ g.mData.length := by
    by_cases hf : s.mEncounteredFirst = true
    · rw [if_pos hf] at hg
      subst hg
      simp [StrByteStream.Clear, StrByteStream.Reserve]
    · rw [if_neg hf] at hg
      subst hg
      exact hcap (by simpa using hf)
  refine ⟨g.mData.drop (8 + (strip data).length), ?_⟩
  rw [if_pos (by omega)]
  simp only [Option.some_bind]
  rw [extractLoop_strip data 8 _ (by simp; omega)]
  simp only [Option.some_bind]
  rw [overwrite_header data _ _ (by omega)]
  unfold store
  rw [if_pos (by simp; omega)]
  simp only [Option.some_bind]

/-- The continuation branch once its two guards are passed: the valid bytes
are copied to fresh storage and the payload is appended. -/
theorem continuation_loop (s : Analyzer) (data : List Nat) (f : Nat)
    (hflag : s.mEncounteredFirst = true) (hf : f = 0 → data.length = 292)
    (hwf : s.gDNP3Data.length ≤ s.gDNP3Data.mData.length) :
    continuation s data f =
      let buf := s.gDNP3Data.valid ++ strip data ++
        List.replicate (data.length - (strip data).length) 0
      let length := (strip data).length + s.gDNP3Data.length
      if f = 1 then
        if length ≥ 65536 then
          some ⟨-7, ["dnp3_data_exceeds_65K"],
            { gDNP3Data := { mData := [], length := 0 }, mEncounteredFirst := false }⟩
        else
          (store buf 2 (encLow length)).bind fun m2 =>
          (store m2 3 (encHigh length)).bind fun m3 =>
          some ⟨0, [], { gDNP3Data := { mData := m3, length := length },
                         mEncounteredFirst := false }⟩
      else
        some ⟨1, [], { gDNP3Data := { mData := buf, length := length },
                       mEncounteredFirst := true }⟩ := by
  have hs := length_strip_le data
  have hvl : s.gDNP3Data.valid.length = s.gDNP3Data.length := by
    simp [StrByteStream.valid]; omega
  unfold continuation memcpy
  simp only [hflag, Bool.true_eq_false, if_false]
  rw [if_neg (by omega), if_pos (by simp; omega)]
  simp only [Option.some_bind, List.drop_replicate, Nat.add_sub_cancel]
  have e : extractLoop data data.length s.gDNP3Data.length (data.length - 10) 0 0
      (List.take s.gDNP3Data.length s.gDNP3Data.mData ++ List.replicate data.length 0) =
      some ((strip data).length, s.gDNP3Data.valid ++ strip data ++
        List.replicate (data.length - (strip data).length) 0) := by
    rw [extractLoop_strip data _ _ (by simp; omega)]
    have := overwrite_append s.gDNP3Data.valid (List.replicate data.length 0) (strip data)
    rw [hvl] at this
    simp only [StrByteStream.valid] at this ⊢
    rw [this, List.drop_replicate]
  rw [e]
  simp only [Option.some_bind, StrByteStream.Clear, encLow, encHigh]

/-! ## The payload of a chunk laid out in blocks -/

theorem copiedBytes_eq_walk (data : List Nat) :
    ∀ (tl : List Nat) (i : Nat), data.drop (i + 10) = tl →
      copiedBytes data i tl.length = keptWalk data.length i tl := by
  intro tl
  induction tl with
  | nil => intro i _; simp [copiedBytes, copiedIdx, keptWalk]
  | cons x tl ih =>
    intro i h
    have hx : data.getD (i + 10) 0 = x := by
      have : (data.drop (i + 10))[0]? = some x := by rw [h]; simp
      rw [List.getElem?_drop] at this
      simp only [Nat.add_zero] at this
      simp [this]
    have htl : data.drop (i + 1 + 10) = tl := by
      have := congrArg List.tail h
      rw [List.tail_drop, List.tail_cons] at this
      rw [← this]
    have := ih (i + 1) htl
    simp only [copiedBytes, List.length_cons, copiedIdx_succ, keptWalk] at this ⊢
    by_cases hc : copied data.length i = true
    · rw [if_pos hc, if_pos hc, List.map_cons, hx, this]
    · rw [if_neg hc, if_neg hc, this]

theorem keptWalk_append (len : Nat) (l1 l2 : List Nat) :
    ∀ i, keptWalk len i (l1 ++ l2) = keptWalk len i l1 ++ keptWalk len (i + l1.length) l2 := by
  induction l1 with
  | nil => intro i; simp [keptWalk]
  | cons x xs ih =>
    intro i
    have e : i + 1 + xs.length = i + (xs.length + 1) := by omega
    rw [List.cons_append, keptWalk, keptWalk, ih (i + 1), List.length_cons, e]
    split <;> simp

/-- Data bytes of a block that are followed by at least two more bytes are all
copied, the byte at position 0 apart. -/
theorem keptWalk_data (len : Nat) (d : List Nat) :
    ∀ i, 1 ≤ i → i % 18 + d.length ≤ 16 → i + d.length + 2 ≤ len - 10 →
      keptWalk len i d = d := by
  induction d with
  | nil => intro i _ _ _; rfl
  | cons x xs ih =>
    intro i h1 h2 h3
    simp only [List.length_cons] at h2 h3
    have hc : copied len i = true := by
      simp only [copied, Bool.and_eq_true, decide_eq_true_eq]
      omega
    rw [keptWalk, if_pos hc, ih (i + 1) (by omega) (by omega) (by omega)]

theorem keptWalk_data_zero (len : Nat) (x : Nat) (xs : List Nat) (h2 : xs.length + 1 ≤ 16)
    (h3 : xs.length + 3 ≤ len - 10) : keptWalk len 0 (x :: xs) = xs := by
  have hc : copied len 0 = false := by simp [copied]
  rw [keptWalk, hc]
  simp only [Bool.false_eq_true, if_false]
  exact keptWalk_data len xs 1 (by omega) (by omega) (by omega)

/-- The trailer of a full block is skipped. -/
theorem keptWalk_trailer_full (len i c1 c2 : Nat) (h : i % 18 = 16) :
    keptWalk len i [c1, c2] = [] := by
  have hc1 : copied len i = false := by
    rw [Bool.eq_false_iff]
    simp only [copied, ne_eq, Bool.and_eq_true, decide_eq_true_eq]
    omega
  have hc2 : copied len (i + 1) = false := by
    rw [Bool.eq_false_iff]
    simp only [copied, ne_eq, Bool.and_eq_true, decide_eq_true_eq]
    omega
  simp [keptWalk, hc1, hc2]

/-- The trailer that ends the chunk is skipped. -/
theorem keptWalk_trailer_last (len i c1 c2 : Nat) (h : i + 2 = len - 10) :
    keptWalk len i [c1, c2] = [] := by
  have hc1 : copied len i = false := by
    rw [Bool.eq_false_iff]
    simp only [copied, ne_eq, Bool.and_eq_true, decide_eq_true_eq]
    omega
  have hc2 : copied len (i + 1) = false := by
    rw [Bool.eq_false_iff]
    simp only [copied, ne_eq, Bool.and_eq_true, decide_eq_true_eq]
    omega
  simp [keptWalk, hc1, hc2]

theorem keptWalk_block (len : Nat) (d : List Nat) (i : Nat) (hd : 1 ≤ d.length)
    (h2 : d.length ≤ 16) (hi : i % 18 = 0) (h3 : i + d.length + 2 ≤ len - 10) :
    keptWalk len i d = if i = 0 then d.tail else d := by
  by_cases h0 : i = 0
  · subst h0
    cases d with
    | nil => simp at hd
    | cons x xs =>
      simp only [List.length_cons] at h2 h3
      rw [if_pos rfl, List.tail_cons]
      exact keptWalk_data_zero len x xs (by omega) (by omega)
  · rw [if_neg h0]
    exact keptWalk_data len d i (by omega) (by omega) (by omega)

/-- Walking a well-framed sequence of blocks that ends the chunk copies
exactly the data bytes, the byte at position 0 apart. -/
theorem keptWalk_layout (len : Nat) :
    ∀ (bs : List Block) (i : Nat), wellFramed bs → i % 18 = 0 →
      i + (layout bs).length = len - 10 →
      keptWalk len i (layout bs) = if i = 0 then (userData bs).tail else userData bs := by
  intro bs
  induction bs with
  | nil => intro i h; simp [wellFramed] at h
  | cons b bs ih =>
    intro i hw hi hl
    cases bs with
    | nil =>
      simp only [wellFramed] at hw
      simp only [layout, List.append_nil, List.length_append, List.length_cons,
        List.length_nil] at hl
      simp only [layout, userData, List.append_nil]
      rw [keptWalk_append, keptWalk_block len b.data i hw.1 hw.2 hi (by omega),
        keptWalk_trailer_last len _ _ _ (by omega), List.append_nil]
    | cons b2 bs2 =>
      simp only [wellFramed] at hw
      have hl2 : i + 18 + (layout (b2 :: bs2)).length = len - 10 := by
        rw [layout] at hl
        simp only [List.length_append, List.length_cons, List.length_nil] at hl
        omega
      have hrest := ih (i + 18) hw.2 (by omega) hl2
      rw [if_neg (by omega)] at hrest
      have hne : b.data ≠ [] := by
        intro h; rw [h] at hw; simp at hw
      rw [layout, userData, keptWalk_append, keptWalk_append,
        keptWalk_block len b.data i (by omega) (by omega) hi (by omega),
        keptWalk_trailer_full len _ _ _ (by omega)]
      simp only [List.length_append, List.length_cons, List.length_nil, List.append_nil]
      rw [show i + (b.data.length + (0 + 1 + 1)) = i + 18 by omega, hrest]
      by_cases h0 : i = 0
      · simp only [h0, if_true]
        rw [List.tail_append_of_ne_nil hne]
      · simp only [h0, if_false]

/-- A chunk made of a 10-byte link header and well-framed blocks: the payload
is the user data without its first byte, the transport header. -/
theorem strip_layout (hdr : List Nat) (bs : List Block) (hh : hdr.length = 10)
    (hw : wellFramed bs) : strip (hdr ++ layout bs) = (userData bs).tail := by
  have hdrop : (hdr ++ layout bs).drop (0 + 10) = layout bs := by
    rw [Nat.zero_add, ← hh, List.drop_left]
  have hk : (hdr ++ layout bs).length - 10 = (layout bs).length := by
    simp [hh]
  rw [← copiedBytes_eq_strip, hk, copiedBytes_eq_walk _ _ 0 hdrop,
    keptWalk_layout _ bs 0 hw rfl (by rw [hk]; omega), if_pos rfl]

/-! ## Results of the branches: codes and frames -/

theorem getD_append_left (l1 l2 : List Nat) (i : Nat) (h : i < l1.length) :
    (l1 ++ l2).getD i 0 = l1.getD i 0 := by
  simp [List.getElem?_append_left h]

theorem valid_single (hd bs rest : List Nat) (h8 : hd.length = 8) :
    StrByteStream.valid { mData := (hd ++ bs ++ rest).set 3 0, length := bs.length + 8 } =
      hd.set 3 0 ++ bs := by
  unfold StrByteStream.valid
  simp only []
  rw [List.append_assoc, List.set_append_left 3 0 (by omega), ← List.append_assoc]
  apply List.take_left'
  simp [h8]
  omega

theorem firstSegment_ret (s : Analyzer) (data : List Nat) (r : Result)
    (h : firstSegment s data = some r) : r.ret = -4 ∨ r.ret = 1 := by
  unfold firstSegment at h
  simp only [] at h
  split at h
  · simp only [Option.some.injEq] at h
    subst h
    exact Or.inl rfl
  · simp only [Option.bind_eq_some, Option.some.injEq] at h
    obtain ⟨_, _, _, _, h⟩ := h
    subst h
    exact Or.inr rfl

theorem continuation_ret (s : Analyzer) (data : List Nat) (f : Nat) (r : Result)
    (h : continuation s data f = some r) :
    r.ret = -5 ∨ r.ret = -6 ∨ r.ret = -7 ∨ r.ret = 0 ∨ r.ret = 1 := by
  unfold continuation at h
  simp only [] at h
  split at h
  · simp only [Option.some.injEq] at h
    subst h
    simp
  · split at h
    · simp only [Option.some.injEq] at h
      subst h
      simp
    · simp only [Option.bind_eq_some] at h
      obtain ⟨_, _, _, _, h⟩ := h
      split at h
      · split at h
        · simp only [Option.some.injEq] at h
          subst h
          simp
        · simp only [Option.bind_eq_some, Option.some.injEq] at h
          obtain ⟨_, _, _, _, h⟩ := h
          subst h
          simp
      · simp only [Option.some.injEq] at h
        subst h
        simp

theorem singlePacket_ret (s : Analyzer) (data : List Nat) (r : Result)
    (h : singlePacket s data = some r) : r.ret = 0 := by
  unfold singlePacket at h
  simp only [Option.bind_eq_some, Option.some.injEq] at h
  obtain ⟨_, _, _, _, _, _, h⟩ := h
  subst h
  rfl

theorem reassembler_badSync (s : Analyzer) (data : List Nat) (h4 : 4 ≤ data.length)
    (hb : badSync data) : DNP3_Reassembler s data = some ⟨-1, [], s⟩ := by
  unfold DNP3_Reassembler
  rw [read_eq data 0 (by omega), read_eq data 1 (by omega)]
  simp only [Option.some_bind]
  by_cases h0 : data.getD 0 0 = 0x05
  · have h1 : data.getD 1 0 ≠ 0x64 := by
      cases hb with
      | inl h => exact absurd h0 h
      | inr h => exact h
    rw [if_neg (by simpa using h0), if_pos h1]
  · rw [if_pos h0]

theorem reassembler_badFunction (s : Analyzer) (data : List Nat) (h4 : 4 ≤ data.length)
    (hs : ¬ badSync data) (hb : badFunction data) :
    DNP3_Reassembler s data = some ⟨-2, [], s⟩ := by
  have h0 : data.getD 0 0 = 0x05 := by
    by_contra h; exact hs (Or.inl h)
  have h1 : data.getD 1 0 = 0x64 := by
    by_contra h; exact hs (Or.inr h)
  have e3 : data.getD 3 0 &&& 0x0F ≠ 0x03 ∧ data.getD 3 0 &&& 0x0F ≠ 0x04 := by
    rw [and_0F]; exact hb
  unfold DNP3_Reassembler
  rw [read_eq data 0 (by omega), read_eq data 1 (by omega), read_eq data 3 (by omega)]
  simp only [Option.some_bind, h0, h1, ne_eq, not_true_eq_false, if_false]
  rw [if_pos e3]

/-- A chunk that passes both link-layer checks never yields `-1` or `-2`. -/
theorem reassembler_accepted_ret (s : Analyzer) (data : List Nat) (h4 : 4 ≤ data.length)
    (hs : ¬ badSync data) (hf : ¬ badFunction data) (r : Result)
    (h : DNP3_Reassembler s data = some r) : r.ret ≠ -1 ∧ r.ret ≠ -2 := by
  have h0 : data.getD 0 0 = 0x05 := by
    by_contra h; exact hs (Or.inl h)
  have h1 : data.getD 1 0 = 0x64 := by
    by_contra h; exact hs (Or.inr h)
  have h3 : data.getD 3 0 % 16 = 3 ∨ data.getD 3 0 % 16 = 4 := by
    unfold badFunction at hf; omega
  by_cases h11 : 11 ≤ data.length
  · rw [reassembler_dispatch s data ⟨h11, h0, h1, h3⟩] at h
    split at h
    · rcases firstSegment_ret s data r h with h | h <;> rw [h] <;> decide
    · split at h
      · rcases continuation_ret s data _ r h with h | h | h | h | h <;> rw [h] <;> decide
      · split at h
        · rw [singlePacket_ret s data r h]; decide
        · simp only [Option.some.injEq] at h
          subst h
          constructor <;> simp
  · exfalso
    have e3 : ¬ (data.getD 3 0 &&& 0x0F ≠ 0x03 ∧ data.getD 3 0 &&& 0x0F ≠ 0x04) := by
      rw [and_0F]; omega
    have e10 : data[10]? = none := by
      rw [List.getElem?_eq_none_iff]; omega
    unfold DNP3_Reassembler at h
    rw [read_eq data 0 (by omega), read_eq data 1 (by omega), read_eq data 3 (by omega)] at h
    simp only [Option.some_bind, h0, h1, ne_eq, not_true_eq_false, if_false, if_neg e3, e10,
      Option.none_bind] at h
    exact absurd h (by simp)

/-! ## C1: single-packet fragments -/

theorem layout_head (bs : List Block) (t : Nat) (a : List Nat) (hw : wellFramed bs)
    (hu : userData bs = t :: a) : ∃ rest, layout bs = t :: rest := by
  cases bs with
  | nil => simp [wellFramed] at hw
  | cons b bs =>
    have hne : 1 ≤ b.data.length := by
      cases bs with
      | nil => exact hw.1
      | cons b2 bs2 => simp only [wellFramed] at hw; omega
    cases hd : b.data with
    | nil => rw [hd] at hne; simp at hne
    | cons x xs =>
      rw [userData, hd, List.cons_append, List.cons.injEq] at hu
      refine ⟨xs ++ [b.crc1, b.crc2] ++ layout bs, ?_⟩
      rw [layout, hd, hu.1]
      rfl

/-- C1: a well-formed single-packet fragment (sync bytes `0x05 0x64`, control
low nibble 3 or 4, FIR = 1 and FIN = 1, and after the 10-byte link header the
transport byte `t` followed by the application bytes `a`, laid out in blocks of
16 data bytes plus 2 trailer bytes, the last block holding 1 to 16 data bytes)
makes `DNP3_Reassembler` return 0 with `mEncounteredFirst` false, length
`8 + |a|`, and the buffer equal to bytes 0..7 of the packet with byte 3 set to
0, followed by exactly `a`.  The storage must hold the chunk, as
`DeliverStream` reserves it (the branch reserves it itself when a fragment was
in progress). -/
theorem single_packet_fragment (s : Analyzer) (hdr : List Nat) (bs : List Block) (t : Nat)
    (a : List Nat) (hh : hdr.length = 10) (h0 : hdr.getD 0 0 = 0x05) (h1 : hdr.getD 1 0 = 0x64)
    (h3 : hdr.getD 3 0 % 16 = 3 ∨ hdr.getD 3 0 % 16 = 4)
    (hw : wellFramed bs) (hu : userData bs = t :: a)
    (hfir : aTranFir t = 1) (hfin : aTranFin t = 1)
    (hcap : s.mEncounteredFirst = false →
      (hdr ++ layout bs).length ≤ s.gDNP3Data.mData.length) :
    ∃ r, DNP3_Reassembler s (hdr ++ layout bs) = some r ∧ r.ret = 0 ∧
      r.st.mEncounteredFirst = false ∧ r.st.gDNP3Data.length = 8 + a.length ∧
      r.st.gDNP3Data.valid = (hdr.take 8).set 3 0 ++ a := by
  obtain ⟨rest, hl⟩ := layout_head bs t a hw hu
  have hlen : 11 ≤ (hdr ++ layout bs).length := by
    rw [hl]; simp only [List.length_append, List.length_cons, hh]; omega
  have hv : headerValid (hdr ++ layout bs) := by
    refine ⟨hlen, ?_, ?_, ?_⟩
    · rw [getD_append_left _ _ 0 (by omega)]; exact h0
    · rw [getD_append_left _ _ 1 (by omega)]; exact h1
    · rw [getD_append_left _ _ 3 (by omega)]; exact h3
  have h10 : (hdr ++ layout bs).getD 10 0 = t := by
    rw [hl, List.getD_eq_getElem?_getD, List.getElem?_append_right (by omega), hh]
    simp
  have hstrip : strip (hdr ++ layout bs) = a := by
    rw [strip_layout hdr bs hh hw, hu, List.tail_cons]
  have htake : (hdr ++ layout bs).take 8 = hdr.take 8 :=
    List.take_append_of_le_length (by omega)
  obtain ⟨rest2, he⟩ := singlePacket_eq s (hdr ++ layout bs) hlen hcap
  rw [hstrip, htake] at he
  rw [← reassembler_single s _ hv (by rw [fir, h10]; exact hfir)
    (by rw [fin, h10]; exact hfin)] at he
  refine ⟨_, he, rfl, rfl, ?_, ?_⟩
  · simp only []
    omega
  · exact valid_single (hdr.take 8) a rest2 (by simp; omega)

theorem single_packet_fragment_witness :
    ∃ r, DNP3_Reassembler (exIdle 16) (exHeader ++ layout exBlocks) = some r ∧ r.ret = 0 ∧
      r.st.mEncounteredFirst = false ∧ r.st.gDNP3Data.length = 8 + [1, 2, 3].length ∧
      r.st.gDNP3Data.valid = (exHeader.take 8).set 3 0 ++ [1, 2, 3] :=
  single_packet_fragment (exIdle 16) exHeader exBlocks 0xC0 [1, 2, 3] (by decide) (by decide)
    (by decide) (by decide) ⟨by decide, by decide⟩ rfl (by decide) (by decide)
    (by decide)

/-! ## C2: fragments of several packets -/

theorem valid_append (v bs : List Nat) (pad : List Nat) (n : Nat) (hn : n = bs.length + v.length) :
    StrByteStream.valid { mData := v ++ bs ++ pad, length := n } = v ++ bs := by
  unfold StrByteStream.valid
  simp only []
  apply List.take_left'
  simp; omega

theorem length_valid (s : Analyzer) (hwf : s.wf) :
    s.gDNP3Data.valid.length = s.gDNP3Data.length := by
  unfold Analyzer.wf at hwf
  simp [StrByteStream.valid]; omega

/-- A first segment of 292 bytes starts a fragment of 257 bytes. -/
theorem first_step (s : Analyzer) (p : List Nat) (hp : isFirst p)
    (hcap : 292 ≤ s.gDNP3Data.mData.length) :
    ∃ s1, DNP3_Reassembler s p = some ⟨1, [], s1⟩ ∧ s1.mEncounteredFirst = true ∧ s1.wf ∧
      s1.gDNP3Data.length = 257 ∧ s1.gDNP3Data.valid = p.take 8 ++ strip p := by
  obtain ⟨hv, h1, h0, hlen⟩ := hp
  have hs := length_strip_292 p hlen
  rw [reassembler_first s p hv h1 h0, firstSegment_eq s p hlen hcap]
  refine ⟨_, rfl, rfl, ?_, rfl, ?_⟩
  · simp [Analyzer.wf]; omega
  · apply valid_append
    simp; omega

/-- A middle segment appends its payload to the fragment in progress. -/
theorem middle_step (s : Analyzer) (p : List Nat) (hp : isMiddle p)
    (hflag : s.mEncounteredFirst = true) (hwf : s.wf) :
    ∃ s1, DNP3_Reassembler s p = some ⟨1, [], s1⟩ ∧ s1.mEncounteredFirst = true ∧ s1.wf ∧
      s1.gDNP3Data.length = s.gDNP3Data.length + (strip p).length ∧
      s1.gDNP3Data.valid = s.gDNP3Data.valid ++ strip p := by
  obtain ⟨hv, h1, h0, hlen⟩ := hp
  have hs := length_strip_le p
  have hvl := length_valid s hwf
  rw [reassembler_cont s p hv h1, continuation_loop s p _ hflag (fun _ => hlen) hwf, h0]
  simp only [show ¬ (0 = 1) by decide, if_false]
  refine ⟨_, rfl, rfl, ?_, ?_, ?_⟩
  · simp [Analyzer.wf]; omega
  · simp only []; omega
  · apply valid_append
    omega

/-- A final segment within the size limit appends its payload and writes the
two length bytes. -/
theorem final_step (s : Analyzer) (p : List Nat) (hp : isFinal p)
    (hflag : s.mEncounteredFirst = true) (hwf : s.wf)
    (hsize : s.gDNP3Data.length + (strip p).length < 65536) :
    ∃ s1, DNP3_Reassembler s p = some ⟨0, [], s1⟩ ∧ s1.mEncounteredFirst = false ∧ s1.wf ∧
      s1.gDNP3Data.length = s.gDNP3Data.length + (strip p).length ∧
      s1.gDNP3Data.valid =
        ((s.gDNP3Data.valid ++ strip p).set 2 (encLow (s.gDNP3Data.length + (strip p).length))).set
          3 (encHigh (s.gDNP3Data.length + (strip p).length)) ∧
      11 ≤ s1.gDNP3Data.mData.length ∧
      s1.gDNP3Data.mData.getD 2 0 = encLow (s.gDNP3Data.length + (strip p).length) ∧
      s1.gDNP3Data.mData.getD 3 0 = encHigh (s.gDNP3Data.length + (strip p).length) := by
  obtain ⟨hv, h1, h0⟩ := hp
  have hs := length_strip_le p
  have hvl := length_valid s hwf
  have h11 := hv.1
  rw [reassembler_cont s p hv h1, continuation_loop s p _ hflag (by omega) hwf, h0]
  simp only [if_true, ge_iff_le]
  rw [if_neg (by omega)]
  unfold store
  rw [if_pos (by simp; omega)]
  simp only [Option.some_bind]
  rw [if_pos (by simp; omega)]
  simp only [Option.some_bind]
  rw [Nat.add_comm (strip p).length]
  refine ⟨_, rfl, rfl, ?_, rfl, ?_, ?_, ?_, ?_⟩
  · simp [Analyzer.wf]; omega
  · unfold StrByteStream.valid at hvl ⊢
    simp only []
    rw [List.set_take, List.set_take]
    congr 2
    apply List.take_left'
    rw [List.length_append, hvl]
  · simp; omega
  · simp only [List.getD_eq_getElem?_getD]
    rw [List.getElem?_set_ne (by decide), List.getElem?_set_self (by simp; omega)]
    rfl
  · simp only [List.getD_eq_getElem?_getD]
    rw [List.getElem?_set_self (by simp; omega)]
    rfl

/-- Middle segments followed by a final segment, fed to a fragment in
progress. -/
theorem feed_continuations (mids : List (List Nat)) (pf : List Nat) (hf : isFinal pf) :
    ∀ s : Analyzer, s.mEncounteredFirst = true → s.wf → (∀ p ∈ mids, isMiddle p) →
      s.gDNP3Data.length + ((mids.map strip).flatten).length + (strip pf).length < 65536 →
      ∃ s1, feed s (mids ++ [pf]) = some (List.replicate mids.length 1 ++ [0], s1) ∧
        s1.mEncounteredFirst = false ∧
        s1.gDNP3Data.length =
          s.gDNP3Data.length + ((mids.map strip).flatten).length + (strip pf).length ∧
        s1.gDNP3Data.valid =
          ((s.gDNP3Data.valid ++ (mids.map strip).flatten ++ strip pf).set 2
            (encLow s1.gDNP3Data.length)).set 3 (encHigh s1.gDNP3Data.length) := by
  induction mids with
  | nil =>
    intro s hflag hwf _ hsize
    simp only [List.map_nil, List.flatten_nil, List.length_nil, Nat.add_zero] at hsize
    obtain ⟨s1, he, hfl, _, hl, hval, _⟩ := final_step s pf hf hflag hwf hsize
    refine ⟨s1, ?_, hfl, ?_, ?_⟩
    · simp [feed, he]
    · simpa using hl
    · rw [hl]
      simpa using hval
  | cons p mids ih =>
    intro s hflag hwf hm hsize
    simp only [List.map_cons, List.flatten_cons, List.length_append] at hsize
    obtain ⟨s1, he, hfl, hwf1, hl, hval⟩ :=
      middle_step s p (hm p (List.mem_cons_self _ _)) hflag hwf
    obtain ⟨s2, he2, hfl2, hl2, hval2⟩ := ih s1 hfl hwf1
      (fun q hq => hm q (List.mem_cons_of_mem _ hq)) (by rw [hl]; omega)
    refine ⟨s2, ?_, hfl2, ?_, ?_⟩
    · rw [List.cons_append, feed, he]
      simp only [Option.some_bind, he2, List.length_cons, List.replicate_succ,
        List.cons_append]
    · rw [hl2, hl]
      simp only [List.map_cons, List.flatten_cons, List.length_append]
      omega
    · rw [hval2, hval]
      simp only [List.map_cons, List.flatten_cons, List.append_assoc]

/-- C2: feed a header-valid first segment `p0` (FIR = 1, FIN = 0, 292 bytes),
header-valid middle segments `mids` (FIR = 0, FIN = 0, 292 bytes each, possibly
none) and a header-valid final segment `pf` (FIR = 0, FIN = 1) in that order,
with the accumulated length below 65536.  Every call but the last returns 1,
the last returns 0, the buffer from offset 8 on is `strip p0` followed by the
`strip` of each middle segment and `strip pf`, and the length is 8 plus the
sum of their lengths.  The storage must hold the first chunk, as
`DeliverStream` reserves it. -/
theorem multi_packet_fragment (s : Analyzer) (p0 : List Nat) (mids : List (List Nat))
    (pf : List Nat) (h0 : isFirst p0) (hm : ∀ p ∈ mids, isMiddle p) (hf : isFinal pf)
    (hcap : 292 ≤ s.gDNP3Data.mData.length)
    (htot : 8 + ((strip p0).length + ((mids.map strip).map List.length).sum +
      (strip pf).length) < 65536) :
    ∃ s1, feed s (p0 :: (mids ++ [pf])) = some (List.replicate (mids.length + 1) 1 ++ [0], s1) ∧
      s1.gDNP3Data.valid.drop 8 = strip p0 ++ (mids.map strip).flatten ++ strip pf ∧
      s1.gDNP3Data.length =
        8 + ((strip p0).length + ((mids.map strip).map List.length).sum + (strip pf).length) := by
  obtain ⟨sa, he, hfl, hwf, hl, hval⟩ := first_step s p0 h0 hcap
  have hs0 := length_strip_292 p0 h0.2.2.2
  rw [← List.length_flatten] at htot ⊢
  obtain ⟨sb, he2, _, hl2, hval2⟩ := feed_continuations mids pf hf sa hfl hwf hm
    (by rw [hl]; omega)
  have h8 : (p0.take 8).length = 8 := by
    have := h0.2.2.2
    simp; omega
  refine ⟨sb, ?_, ?_, ?_⟩
  · rw [feed, he]
    simp only [Option.some_bind, he2, List.replicate_succ, List.cons_append]
  · rw [hval2, List.drop_set_of_lt _ _ (by omega), List.drop_set_of_lt _ _ (by omega), hval,
      List.append_assoc, List.append_assoc, List.drop_left' h8, List.append_assoc]
  · rw [hl2, hl]
    omega

set_option maxRecDepth 100000 in
theorem multi_packet_fragment_witness :
    ∃ s1, feed (exIdle 292) (exFirst :: ([exMiddle] ++ [exFinal])) =
        some (List.replicate ([exMiddle].length + 1) 1 ++ [0], s1) ∧
      s1.gDNP3Data.valid.drop 8 =
        strip exFirst ++ ([exMiddle].map strip).flatten ++ strip exFinal ∧
      s1.gDNP3Data.length =
        8 + ((strip exFirst).length + (([exMiddle].map strip).map List.length).sum +
          (strip exFinal).length) :=
  multi_packet_fragment (exIdle 292) exFirst [exMiddle] exFinal (by decide) (by decide)
    (by decide) (by decide) (by decide)

/-! ## C3: what `DeliverStream` forwards -/

/-- Whatever `DNP3_Reassembler` returns, `DeliverStream` hands the valid part
of the buffer to `interp->NewData` and clears the buffer. -/
theorem deliverStream_eq (s : Analyzer) (data : List Nat) (r : Result) (h4 : 4 ≤ data.length)
    (h : DNP3_Reassembler { s with gDNP3Data := s.gDNP3Data.Reserve data.length } data = some r) :
    DeliverStream s data = some
      { forwarded := [((data.getD 3 0 &&& 0x80) == 0x80, r.st.gDNP3Data.valid)],
        weird := r.weird,
        st := { r.st with gDNP3Data := r.st.gDNP3Data.Clear } } := by
  unfold DeliverStream
  simp only [h, Option.some_bind, read_eq data 3 (by omega)]

set_option maxRecDepth 100000 in
/-- C3, at the failing input: on a first segment (FIR = 1, FIN = 0, 292 bytes)
`DNP3_Reassembler` returns 1, "more data expected", and `DeliverStream` all the
same forwards the 257 bytes gathered so far and clears the buffer, leaving
`mEncounteredFirst` set. -/
theorem deliverStream_forwards_unfinished :
    (DNP3_Reassembler { Analyzer.init with
        gDNP3Data := Analyzer.init.gDNP3Data.Reserve exFirst.length } exFirst).map Result.ret =
      some 1 ∧
    (DeliverStream Analyzer.init exFirst).map
        (fun d => (d.forwarded.map (fun f => f.2.length), d.st)) =
      some ([257], { gDNP3Data := { mData := [], length := 0 }, mEncounteredFirst := true }) := by
  decide

/-! ## C4: chunks rejected by the link-layer checks -/

theorem feed_rejected (s : Analyzer) (chunks : List (List Nat))
    (hch : ∀ c ∈ chunks, 4 ≤ c.length ∧ (badSync c ∨ badFunction c)) :
    ∃ codes, feed s chunks = some (codes, s) ∧ ∀ c ∈ codes, c = -1 ∨ c = -2 := by
  induction chunks with
  | nil => exact ⟨[], rfl, by simp⟩
  | cons c cs ih =>
    obtain ⟨codes, hfeed, hcodes⟩ := ih (fun d hd => hch d (List.mem_cons_of_mem _ hd))
    obtain ⟨h4, hbad⟩ := hch c (List.mem_cons_self _ _)
    by_cases hs : badSync c
    · refine ⟨-1 :: codes, ?_, ?_⟩
      · rw [feed, reassembler_badSync s c h4 hs]
        simp only [Option.some_bind, hfeed]
      · intro x hx
        rcases List.mem_cons.mp hx with h | h
        · exact Or.inl h
        · exact hcodes x h
    · have hf : badFunction c := by
        rcases hbad with h | h
        · exact absurd h hs
        · exact h
      refine ⟨-2 :: codes, ?_, ?_⟩
      · rw [feed, reassembler_badFunction s c h4 hs hf]
        simp only [Option.some_bind, hfeed]
      · intro x hx
        rcases List.mem_cons.mp hx with h | h
        · exact Or.inr h
        · exact hcodes x h

/-- C4: for every state and every chunk (with the bytes 0, 1 and 3 that the
checks read), `DNP3_Reassembler` returns -1 exactly when byte 0 is not `0x05`
or byte 1 is not `0x64`, and otherwise returns -2 exactly when the low four
bits of byte 3 are neither 3 nor 4; in both cases the state (buffer, length,
`mEncounteredFirst`) is unchanged, and feeding any number of such chunks in a
row leaves the state as it was. -/
theorem validator_rejection (s : Analyzer) (data : List Nat) (chunks : List (List Nat))
    (h4 : 4 ≤ data.length)
    (hch : ∀ c ∈ chunks, 4 ≤ c.length ∧ (badSync c ∨ badFunction c)) :
    ((∃ r, DNP3_Reassembler s data = some r ∧ r.ret = -1) ↔ badSync data) ∧
    (¬ badSync data →
      ((∃ r, DNP3_Reassembler s data = some r ∧ r.ret = -2) ↔ badFunction data)) ∧
    (∀ r, DNP3_Reassembler s data = some r → r.ret = -1 ∨ r.ret = -2 → r.st = s) ∧
    (∃ codes, feed s chunks = some (codes, s) ∧ ∀ c ∈ codes, c = -1 ∨ c = -2) := by
  have key : ∀ r, DNP3_Reassembler s data = some r → r.ret = -1 ∨ r.ret = -2 →
      (badSync data ∧ r = ⟨-1, [], s⟩) ∨ (¬ badSync data ∧ badFunction data ∧ r = ⟨-2, [], s⟩) := by
    intro r hr hret
    by_cases hs : badSync data
    · rw [reassembler_badSync s data h4 hs] at hr
      exact Or.inl ⟨hs, (Option.some.inj hr).symm⟩
    · by_cases hf : badFunction data
      · rw [reassembler_badFunction s data h4 hs hf] at hr
        exact Or.inr ⟨hs, hf, (Option.some.inj hr).symm⟩
      · have := reassembler_accepted_ret s data h4 hs hf r hr
        rcases hret with h | h
        · exact absurd h this.1
        · exact absurd h this.2
  refine ⟨⟨?_, ?_⟩, ?_, ?_, feed_rejected s chunks hch⟩
  · rintro ⟨r, hr, hret⟩
    rcases key r hr (Or.inl hret) with ⟨hs, _⟩ | ⟨_, _, h⟩
    · exact hs
    · rw [h] at hret
      simp at hret
  · intro hs
    exact ⟨_, reassembler_badSync s data h4 hs, rfl⟩
  · intro hs
    constructor
    · rintro ⟨r, hr, hret⟩
      rcases key r hr (Or.inr hret) with ⟨hs2, _⟩ | ⟨_, hf, _⟩
      · exact absurd hs2 hs
      · exact hf
    · intro hf
      exact ⟨_, reassembler_badFunction s data h4 hs hf, rfl⟩
  · intro r hr hret
    rcases key r hr hret with ⟨_, h⟩ | ⟨_, _, h⟩ <;> rw [h]

/-- C4 at a sample: a chunk with a wrong sync byte, then fed again together
with a chunk whose function code is 0. -/
theorem validator_rejection_witness :
    ((∃ r, DNP3_Reassembler (exIdle 16) [0x05, 0x65, 0, 0xC4] = some r ∧ r.ret = -1) ↔
      badSync [0x05, 0x65, 0, 0xC4]) ∧
    (¬ badSync [0x05, 0x65, 0, 0xC4] →
      ((∃ r, DNP3_Reassembler (exIdle 16) [0x05, 0x65, 0, 0xC4] = some r ∧ r.ret = -2) ↔
        badFunction [0x05, 0x65, 0, 0xC4])) ∧
    (∀ r, DNP3_Reassembler (exIdle 16) [0x05, 0x65, 0, 0xC4] = some r →
      r.ret = -1 ∨ r.ret = -2 → r.st = exIdle 16) ∧
    (∃ codes, feed (exIdle 16) [[0x05, 0x65, 0, 0xC4], [0x05, 0x64, 0, 0xC0]] =
        some (codes, exIdle 16) ∧ ∀ c ∈ codes, c = -1 ∨ c = -2) :=
  validator_rejection (exIdle 16) [0x05, 0x65, 0, 0xC4]
    [[0x05, 0x65, 0, 0xC4], [0x05, 0x64, 0, 0xC0]] (by decide) (by decide)

/-! ## C5: a continuation with no fragment in progress -/

/-- C5: a header-valid chunk with FIR = 0 (FIN either way, any length)
processed while `mEncounteredFirst` is false makes `DNP3_Reassembler` raise
`dnp3_first_transport_sgement_missing` and return -5, and leaves the buffer,
its length and `mEncounteredFirst` unchanged. -/
theorem missing_first_segment (s : Analyzer) (data : List Nat) (hv : headerValid data)
    (hfir : fir data = 0) (hflag : s.mEncounteredFirst = false) :
    DNP3_Reassembler s data = some ⟨-5, ["dnp3_first_transport_sgement_missing"], s⟩ := by
  rw [reassembler_cont s data hv hfir]
  unfold continuation
  simp only [hflag, if_true]

/-- C5 at a sample: a final segment sent to an idle analyzer. -/
theorem missing_first_segment_witness :
    DNP3_Reassembler (exIdle 64) exFinal =
      some ⟨-5, ["dnp3_first_transport_sgement_missing"], exIdle 64⟩ :=
  missing_first_segment (exIdle 64) exFinal (by decide) (by decide) rfl

/-! ## C6: a single-packet fragment while another fragment is unfinished -/

/-- A single-packet fragment processed with storage for it. -/
theorem single_step (s : Analyzer) (p : List Nat) (hp : isSingle p)
    (hcap : s.mEncounteredFirst = false → p.length ≤ s.gDNP3Data.mData.length) :
    ∃ s1, DNP3_Reassembler s p = some
        ⟨0, if s.mEncounteredFirst = true then ["dnp3_missing_finish_packet"] else [], s1⟩ ∧
      s1.mEncounteredFirst = false ∧ s1.gDNP3Data.length = (strip p).length + 8 ∧
      s1.gDNP3Data.valid = (p.take 8).set 3 0 ++ strip p := by
  obtain ⟨hv, h1, h0⟩ := hp
  obtain ⟨rest, he⟩ := singlePacket_eq s p hv.1 hcap
  rw [← reassembler_single s p hv h1 h0] at he
  have h11 := hv.1
  exact ⟨_, he, rfl, rfl, valid_single (p.take 8) (strip p) rest (by simp; omega)⟩

/-- C6: a header-valid first segment `A` (FIR = 1, FIN = 0, 292 bytes)
followed immediately by a header-valid single-packet fragment `B` (FIR = 1,
FIN = 1): on `B` the reassembler raises `dnp3_missing_finish_packet`, returns 0
with `mEncounteredFirst` false, and the fragment (the valid bytes and the
length) is the one that `B` alone produces from the analyzer as constructed,
once `DeliverStream` has reserved storage for it.  The storage must hold `A`
when `A` arrives. -/
theorem missing_final_segment (s : Analyzer) (A B : List Nat) (hA : isFirst A)
    (hB : isSingle B) (hcap : 292 ≤ s.gDNP3Data.mData.length) :
    ∃ s1 s2 s3, DNP3_Reassembler s A = some ⟨1, [], s1⟩ ∧
      DNP3_Reassembler s1 B = some ⟨0, ["dnp3_missing_finish_packet"], s2⟩ ∧
      s2.mEncounteredFirst = false ∧
      DNP3_Reassembler (Analyzer.reserved B.length) B = some ⟨0, [], s3⟩ ∧
      s2.gDNP3Data.valid = s3.gDNP3Data.valid ∧
      s2.gDNP3Data.length = s3.gDNP3Data.length := by
  obtain ⟨s1, he1, hfl1, _, _, _⟩ := first_step s A hA hcap
  obtain ⟨s2, he2, hfl2, hl2, hv2⟩ := single_step s1 B hB (by rw [hfl1]; simp)
  obtain ⟨s3, he3, _, hl3, hv3⟩ := single_step (Analyzer.reserved B.length) B hB
    (by intro _; simp [Analyzer.reserved, Analyzer.init, StrByteStream.Reserve])
  rw [hfl1] at he2
  refine ⟨s1, s2, s3, he1, he2, hfl2, he3, ?_, ?_⟩
  · rw [hv2, hv3]
  · rw [hl2, hl3]

set_option maxRecDepth 100000 in
/-- C6 at a sample: `exFirst` followed by `exSingle`. -/
theorem missing_final_segment_witness :
    ∃ s1 s2 s3, DNP3_Reassembler (exIdle 292) exFirst = some ⟨1, [], s1⟩ ∧
      DNP3_Reassembler s1 exSingle = some ⟨0, ["dnp3_missing_finish_packet"], s2⟩ ∧
      s2.mEncounteredFirst = false ∧
      DNP3_Reassembler (Analyzer.reserved exSingle.length) exSingle = some ⟨0, [], s3⟩ ∧
      s2.gDNP3Data.valid = s3.gDNP3Data.valid ∧
      s2.gDNP3Data.length = s3.gDNP3Data.length :=
  missing_final_segment (exIdle 292) exFirst exSingle (by decide) (by decide) (by decide)

/-! ## C7: the size limit at finalisation -/

/-- A final segment that brings the length to 65536 or more: the fragment is
dropped. -/
theorem final_too_large (s : Analyzer) (p : List Nat) (hp : isFinal p)
    (hflag : s.mEncounteredFirst = true) (hwf : s.wf)
    (hsize : 65536 ≤ s.gDNP3Data.length + (strip p).length) :
    DNP3_Reassembler s p = some ⟨-7, ["dnp3_data_exceeds_65K"],
      { gDNP3Data := { mData := [], length := 0 }, mEncounteredFirst := false }⟩ := by
  obtain ⟨hv, h1, h0⟩ := hp
  rw [reassembler_cont s p hv h1, continuation_loop s p _ hflag (by omega) hwf, h0]
  simp only [if_true, ge_iff_le]
  rw [if_pos (by omega)]

/-- C7: for every state awaiting continuation (valid bytes within the storage,
and `length + len` below `2 ^ 31`, so that the `int` sum `len + aTempFormerLen`
of the source does not overflow) and every header-valid final segment
(FIR = 0, FIN = 1): if the accumulated length with the segment's payload is
exactly 65535, the call returns 0 and the fragment is kept (65535 bytes: the
former valid bytes and the payload, bytes 2 and 3 rewritten); if it is 65536
or more, the call raises `dnp3_data_exceeds_65K`, returns -7, and leaves the
buffer empty (length 0) with `mEncounteredFirst` false. -/
theorem size_boundary (s : Analyzer) (p : List Nat) (hp : isFinal p)
    (hflag : s.mEncounteredFirst = true) (hwf : s.wf)
    (hint : s.gDNP3Data.length + p.length < 2 ^ 31) :
    (s.gDNP3Data.length + (strip p).length = 65535 →
      ∃ s1, DNP3_Reassembler s p = some ⟨0, [], s1⟩ ∧ s1.mEncounteredFirst = false ∧
        s1.gDNP3Data.length = 65535 ∧
        s1.gDNP3Data.valid =
          ((s.gDNP3Data.valid ++ strip p).set 2 (encLow 65535)).set 3 (encHigh 65535)) ∧
    (65536 ≤ s.gDNP3Data.length + (strip p).length →
      ∃ s1, DNP3_Reassembler s p = some ⟨-7, ["dnp3_data_exceeds_65K"], s1⟩ ∧
        s1.mEncounteredFirst = false ∧ s1.gDNP3Data.length = 0 ∧ s1.gDNP3Data.valid = []) := by
  have _ := hint
  constructor
  · intro h
    obtain ⟨s1, he, hfl, _, hl, hval, _⟩ := final_step s p hp hflag hwf (by omega)
    rw [h] at hl hval
    exact ⟨s1, he, hfl, hl, hval⟩
  · intro h
    exact ⟨_, final_too_large s p hp hflag hwf h, rfl, rfl, rfl⟩

/-- C7 at two samples: 65502 valid bytes and the 33 payload bytes of `exFinal`
make exactly 65535; 65503 valid bytes make 65536. -/
theorem size_boundary_witness :
    (∃ s1, DNP3_Reassembler (exAwaiting 65502) exFinal = some ⟨0, [], s1⟩ ∧
      s1.mEncounteredFirst = false ∧ s1.gDNP3Data.length = 65535 ∧
      s1.gDNP3Data.valid =
        (((exAwaiting 65502).gDNP3Data.valid ++ strip exFinal).set 2 (encLow 65535)).set 3
          (encHigh 65535)) ∧
    (∃ s1, DNP3_Reassembler (exAwaiting 65503) exFinal =
        some ⟨-7, ["dnp3_data_exceeds_65K"], s1⟩ ∧
      s1.mEncounteredFirst = false ∧ s1.gDNP3Data.length = 0 ∧ s1.gDNP3Data.valid = []) :=
  ⟨(size_boundary (exAwaiting 65502) exFinal (by decide) rfl
      (by show 65502 ≤ (List.replicate 65502 0).length; rw [List.length_replicate])
      (by decide)).1
      (by decide),
    (size_boundary (exAwaiting 65503) exFinal (by decide) rfl
      (by show 65503 ≤ (List.replicate 65503 0).length; rw [List.length_replicate])
      (by decide)).2
      (by decide)⟩

/-! ## C8: non-final segments of the wrong size -/

/-- C8 as stated fails: with no fragment in progress, a header-valid chunk of
11 bytes with FIR = 0 and FIN = 0 is rejected with
`dnp3_first_transport_sgement_missing` (-5), not with the payload-size
failure. -/
theorem nonfinal_size_counterexample :
    headerValid exShortMiddle ∧ fin exShortMiddle = 0 ∧ exShortMiddle.length ≠ 292 ∧
    DNP3_Reassembler Analyzer.init exShortMiddle =
      some ⟨-5, ["dnp3_first_transport_sgement_missing"], Analyzer.init⟩ := by
  decide

/-- C8, amended: for every state and every header-valid chunk with FIN = 0 and
length other than 292, `DNP3_Reassembler` rejects the chunk with the
payload-size failure when FIR = 1 (`dnp3_unexpected_payload_size`, -4) or when
FIR = 0 and a fragment is in progress (`unexpected_payload_length`, -6); when
FIR = 0 and no fragment is in progress it rejects it with
`dnp3_first_transport_sgement_missing` (-5). -/
theorem nonfinal_size (s : Analyzer) (data : List Nat) (hv : headerValid data)
    (hfin : fin data = 0) (hlen : data.length ≠ 292) :
    (fir data = 1 → ∃ r, DNP3_Reassembler s data = some r ∧ r.ret = -4 ∧
      r.weird = ["dnp3_unexpected_payload_size"]) ∧
    (fir data = 0 → s.mEncounteredFirst = true →
      DNP3_Reassembler s data = some ⟨-6, ["unexpected_payload_length"], s⟩) ∧
    (fir data = 0 → s.mEncounteredFirst = false →
      DNP3_Reassembler s data = some ⟨-5, ["dnp3_first_transport_sgement_missing"], s⟩) ∧
    (fir data = 0 ∨ fir data = 1) := by
  refine ⟨?_, ?_, ?_, aTranFir_cases _⟩
  · intro h1
    rw [reassembler_first s data hv h1 hfin]
    unfold firstSegment
    simp only [ne_eq, hlen, not_false_eq_true, if_true]
    exact ⟨_, rfl, rfl, rfl⟩
  · intro h1 hflag
    rw [reassembler_cont s data hv h1]
    unfold continuation
    simp only [hflag, Bool.true_eq_false, if_false, hfin, ne_eq, hlen, not_false_eq_true,
      and_self, if_true]
  · intro h1 hflag
    rw [reassembler_cont s data hv h1]
    unfold continuation
    simp only [hflag, if_true]

/-- C8 at a sample: an 11-byte middle segment while a fragment is in
progress. -/
theorem nonfinal_size_witness :
    DNP3_Reassembler (exAwaiting 257) exShortMiddle =
      some ⟨-6, ["unexpected_payload_length"], exAwaiting 257⟩ :=
  (nonfinal_size (exAwaiting 257) exShortMiddle (by decide) (by decide) (by decide)).2.1
    (by decide) rfl

/-! ## C9: the two length bytes -/

theorem and_FF00_shift (m : Nat) : (m &&& 0xFF00) >>> 8 = m / 256 % 256 := by
  apply Nat.eq_of_testBit_eq
  intro i
  have h1 : (0xFF00 : Nat) = (2 ^ 8 - 1) <<< 8 := by decide
  have h2 : m / 256 % 256 = (m >>> 8) % 2 ^ 8 := by
    rw [Nat.shiftRight_eq_div_pow]
    rfl
  rw [h2, Nat.testBit_shiftRight, Nat.testBit_and, h1, Nat.testBit_shiftLeft,
    Nat.testBit_two_pow_sub_one, Nat.testBit_mod_two_pow, Nat.testBit_shiftRight]
  by_cases hi : i < 8
  · simp [hi]
  · simp [hi]

theorem encLow_eq (L : Nat) (h : 2 ≤ L) : encLow L = (L - 2) % 256 := by
  unfold encLow toUChar
  have e : ((L : Int) - 2) = ((L - 2 : Nat) : Int) := by omega
  rw [e, Int.tmod_eq_emod (by omega) (by omega)]
  omega

theorem encHigh_eq (L : Nat) (h : 2 ≤ L) : encHigh L = (L - 2) / 256 % 256 := by
  unfold encHigh toUChar
  have e : ((L : Int) - 2) = ((L - 2 : Nat) : Int) := by omega
  have e2 : Int.land ((L - 2 : Nat) : Int) 0xFF00 = (((L - 2) &&& 0xFF00 : Nat) : Int) := rfl
  rw [e, e2, Int.natCast_shiftRight, and_FF00_shift]
  omega

/-- The two length bytes of a fragment of 2 to 65537 bytes decode to its
length minus 2. -/
theorem length_encoding (L : Nat) (h2 : 2 ≤ L) (h : L < 65538) :
    encLow L + 256 * encHigh L = L - 2 := by
  rw [encLow_eq L h2, encHigh_eq L h2]
  omega

theorem ldiff_FF00_one : Nat.ldiff 0xFF00 1 = 0xFF00 := by
  apply Nat.eq_of_testBit_eq
  intro i
  rw [Nat.testBit_ldiff]
  cases i <;> simp [Nat.testBit_succ]

theorem encLow_zero : encLow 0 = 254 := by decide

theorem encHigh_zero : encHigh 0 = 255 := by
  unfold encHigh toUChar
  have e : Int.land ((0 : Nat) - 2 : Int) 0xFF00 = ((Nat.ldiff 0xFF00 1 : Nat) : Int) := rfl
  rw [e, ldiff_FF00_one]
  decide

set_option maxRecDepth 100000 in
/-- C9, at the failing input: from the analyzer as constructed, an 11-byte
chunk with FIR = 1 and FIN = 0 is rejected with -4 but leaves
`mEncounteredFirst` set; the 11-byte final segment that follows is then
finalised (return 0) with length `L = 0`, and bytes 2 and 3 of the buffer are
254 and 255, which decode to 65534 and not to `L - 2`. -/
theorem length_bytes_after_rejected_first :
    (feed Analyzer.init [exShortFirst, exShortFinal]).map
        (fun o => (o.1, o.2.gDNP3Data.length, o.2.gDNP3Data.mData.getD 2 0,
          o.2.gDNP3Data.mData.getD 3 0)) =
      some ([-4, 0], 0, 254, 255) := by
  have h1 : DNP3_Reassembler Analyzer.init exShortFirst =
      some ⟨-4, ["dnp3_unexpected_payload_size"],
        { Analyzer.init with mEncounteredFirst := true }⟩ := by decide
  have hs : (strip exShortFinal).length = 0 := by decide
  obtain ⟨s2, he, _, _, hl, _, _, hb2, hb3⟩ :=
    final_step { Analyzer.init with mEncounteredFirst := true } exShortFinal (by decide) rfl
      (by decide) (by decide)
  rw [hs] at hl hb2 hb3
  have hl0 : s2.gDNP3Data.length = 0 := hl
  have hb2z : s2.gDNP3Data.mData.getD 2 0 = 254 := by rw [hb2]; exact encLow_zero
  have hb3z : s2.gDNP3Data.mData.getD 3 0 = 255 := by rw [hb3]; exact encHigh_zero
  rw [feed, h1]
  simp only [Option.some_bind]
  rw [feed, he]
  simp only [Option.some_bind, feed, Option.map_some', hl0, hb2z, hb3z]

/-! ## C10: a first segment followed by a 50-byte final segment -/

/-- A chunk of 50 bytes yields 33 payload bytes. -/
theorem length_strip_50 (data : List Nat) (h : data.length = 50) :
    (strip data).length = 33 := by
  rw [← copiedBytes_eq_strip, length_copiedBytes, h]
  decide

/-- A first segment followed by a final segment. -/
theorem first_then_final (s : Analyzer) (A B : List Nat) (hA : isFirst A) (hB : isFinal B)
    (hcap : 292 ≤ s.gDNP3Data.mData.length) (hsize : 257 + (strip B).length < 65536) :
    ∃ s1, feed s [A, B] = some ([1, 0], s1) ∧
      s1.gDNP3Data.length = 257 + (strip B).length ∧
      s1.gDNP3Data.mData.getD 2 0 = encLow (257 + (strip B).length) ∧
      s1.gDNP3Data.mData.getD 3 0 = encHigh (257 + (strip B).length) := by
  obtain ⟨sa, he, hfl, hwf, hl, _⟩ := first_step s A hA hcap
  obtain ⟨sb, he2, _, _, hl2, _, _, hb2, hb3⟩ := final_step sa B hB hfl hwf (by
    rw [hl]; exact hsize)
  rw [hl] at hl2 hb2 hb3
  refine ⟨sb, ?_, hl2, hb2, hb3⟩
  rw [feed, he]
  simp only [Option.some_bind]
  rw [feed, he2]
  simp only [Option.some_bind, feed]

set_option maxRecDepth 100000 in
/-- C10 as stated fails: for the first segment `exFirst` (292 bytes) followed
by the final segment `exFinal` (50 bytes), the calls return 1 and 0, the
payload after the 8-byte header is 282 bytes long, not 288, and bytes 2 and 3
decode to 288, not 286. -/
theorem two_packet_counterexample :
    isFirst exFirst ∧ isFinal exFinal ∧ exFinal.length = 50 ∧
    (feed (exIdle 292) [exFirst, exFinal]).map
        (fun o => (o.1, o.2.gDNP3Data.length - 8,
          o.2.gDNP3Data.mData.getD 2 0 + 256 * o.2.gDNP3Data.mData.getD 3 0)) =
      some ([1, 0], 282, 288) := by
  have hf : isFirst exFirst := by decide
  have hl : isFinal exFinal := by decide
  have hs : (strip exFinal).length = 33 := length_strip_50 exFinal (by decide)
  obtain ⟨s1, he, hlen, hb2, hb3⟩ := first_then_final (exIdle 292) exFirst exFinal hf hl
    (by decide) (by rw [hs]; decide)
  rw [hs] at hlen hb2 hb3
  have henc := length_encoding 290 (by decide) (by decide)
  refine ⟨hf, hl, by decide, ?_⟩
  rw [he]
  simp only [Option.map_some', hlen, hb2, hb3, henc]

/-- C10, amended: a header-valid first segment `A` (FIR = 1, FIN = 0, 292
bytes) followed by a header-valid final segment `B` (FIR = 0, FIN = 1, 50
bytes) completes exactly one fragment (`A` returns 1, `B` returns 0); its
payload after the 8-byte header is `249 + 33 = 282` bytes long (the transport
byte of each chunk is left out as well as the trailers), and bytes 2 and 3
encode the whole length minus 2: `buffer[2] + 256 * buffer[3] = 288`.  The
storage must hold `A` when `A` arrives. -/
theorem two_packet_scenario (s : Analyzer) (A B : List Nat) (hA : isFirst A) (hB : isFinal B)
    (hlenB : B.length = 50) (hcap : 292 ≤ s.gDNP3Data.mData.length) :
    ∃ s1, feed s [A, B] = some ([1, 0], s1) ∧
      s1.gDNP3Data.length - 8 = (strip A).length + (strip B).length ∧
      (strip A).length + (strip B).length = 282 ∧
      s1.gDNP3Data.mData.getD 2 0 + 256 * s1.gDNP3Data.mData.getD 3 0 = 288 := by
  have hsA := length_strip_292 A hA.2.2.2
  have hsB := length_strip_50 B hlenB
  obtain ⟨s1, he, hlen, hb2, hb3⟩ := first_then_final s A B hA hB hcap (by omega)
  rw [hsB] at hlen hb2 hb3
  have henc := length_encoding 290 (by decide) (by decide)
  refine ⟨s1, he, ?_, ?_, ?_⟩
  · rw [hlen, hsA, hsB]
  · rw [hsA, hsB]
  · rw [hb2, hb3]
    exact henc

set_option maxRecDepth 100000 in
/-- C10 at a sample: `exFirst` followed by `exFinal`. -/
theorem two_packet_scenario_witness :
    ∃ s1, feed (exIdle 292) [exFirst, exFinal] = some ([1, 0], s1) ∧
      s1.gDNP3Data.length - 8 = (strip exFirst).length + (strip exFinal).length ∧
      (strip exFirst).length + (strip exFinal).length = 282 ∧
      s1.gDNP3Data.mData.getD 2 0 + 256 * s1.gDNP3Data.mData.getD 3 0 = 288 :=
  two_packet_scenario (exIdle 292) exFirst exFinal (by decide) (by decide) (by decide)
    (by decide)

/-! ## C11: the direction flag -/

theorem bit7_eq (c : Nat) : ((c &&& 0x80) == 0x80) = c.testBit 7 := by
  have h1 : (c &&& 0x80).testBit 7 = c.testBit 7 := by
    rw [Nat.testBit_and]
    have : Nat.testBit 0x80 7 = true := by decide
    rw [this, Bool.and_true]
  by_cases h : c &&& 0x80 = 0x80
  · rw [h] at h1
    have h2 : c.testBit 7 = true := by rw [← h1]; decide
    rw [h, h2]
    decide
  · have hle : c &&& 0x80 ≤ 0x80 := Nat.and_le_right
    have hlt : c &&& 0x80 < 2 ^ 7 := by omega
    have h2 := Nat.testBit_lt_two_pow hlt
    rw [h1] at h2
    rw [h2]
    simpa using h

/-- A first segment of the wrong size: `-4`, and `mEncounteredFirst` is set. -/
theorem first_wrong_size (s : Analyzer) (data : List Nat) (hv : headerValid data)
    (h1 : fir data = 1) (h0 : fin data = 0) (hlen : data.length ≠ 292) :
    DNP3_Reassembler s data = some ⟨-4, ["dnp3_unexpected_payload_size"],
      { s with mEncounteredFirst := true }⟩ := by
  rw [reassembler_first s data hv h1 h0]
  unfold firstSegment
  simp only [ne_eq, hlen, not_false_eq_true, if_true]

/-- A continuation while no fragment is in progress: `-5`, state unchanged. -/
theorem cont_idle (s : Analyzer) (data : List Nat) (hv : headerValid data)
    (h1 : fir data = 0) (hflag : s.mEncounteredFirst = false) :
    DNP3_Reassembler s data =
      some ⟨-5, ["dnp3_first_transport_sgement_missing"], s⟩ := by
  rw [reassembler_cont s data hv h1]
  unfold continuation
  simp only [hflag, if_true]

/-- A middle segment of the wrong size while a fragment is in progress: `-6`,
state unchanged. -/
theorem middle_wrong_size (s : Analyzer) (data : List Nat) (hv : headerValid data)
    (h1 : fir data = 0) (h0 : fin data = 0) (hlen : data.length ≠ 292)
    (hflag : s.mEncounteredFirst = true) :
    DNP3_Reassembler s data = some ⟨-6, ["unexpected_payload_length"], s⟩ := by
  rw [reassembler_cont s data hv h1]
  unfold continuation
  simp only [hflag, Bool.true_eq_false, if_false, h0, ne_eq, hlen, not_false_eq_true,
    and_self, if_true]

/-- With valid bytes inside the storage and storage for the chunk, no access
of `DNP3_Reassembler` is out of range: the call returns. -/
theorem reassembler_total (s : Analyzer) (data : List Nat) (h11 : 11 ≤ data.length)
    (hwf : s.wf) (hcap : data.length ≤ s.gDNP3Data.mData.length) :
    ∃ r, DNP3_Reassembler s data = some r := by
  by_cases hs : badSync data
  · exact ⟨_, reassembler_badSync s data (by omega) hs⟩
  by_cases hf : badFunction data
  · exact ⟨_, reassembler_badFunction s data (by omega) hs hf⟩
  have hv : headerValid data := by
    refine ⟨h11, ?_, ?_, ?_⟩
    · by_contra h; exact hs (Or.inl h)
    · by_contra h; exact hs (Or.inr h)
    · unfold badFunction at hf; omega
  rcases aTranFir_cases (data.getD 10 0) with h1 | h1
  · by_cases hflag : s.mEncounteredFirst = true
    · rcases aTranFin_cases (data.getD 10 0) with h0 | h0
      · by_cases hlen : data.length = 292
        · obtain ⟨s1, he, _⟩ := middle_step s data ⟨hv, h1, h0, hlen⟩ hflag hwf
          exact ⟨_, he⟩
        · exact ⟨_, middle_wrong_size s data hv h1 h0 hlen hflag⟩
      · by_cases hsize : s.gDNP3Data.length + (strip data).length < 65536
        · obtain ⟨s1, he, _⟩ := final_step s data ⟨hv, h1, h0⟩ hflag hwf hsize
          exact ⟨_, he⟩
        · exact ⟨_, final_too_large s data ⟨hv, h1, h0⟩ hflag hwf (by omega)⟩
    · exact ⟨_, cont_idle s data hv h1 (by simpa using hflag)⟩
  · rcases aTranFin_cases (data.getD 10 0) with h0 | h0
    · by_cases hlen : data.length = 292
      · obtain ⟨s1, he, _⟩ := first_step s data ⟨hv, h1, h0, hlen⟩ (by omega)
        exact ⟨_, he⟩
      · exact ⟨_, first_wrong_size s data hv h1 h0 hlen⟩
    · obtain ⟨s1, he, _⟩ := single_step s data ⟨hv, h1, h0⟩ (fun _ => hcap)
      exact ⟨_, he⟩

/-- After `Reserve(len)` the valid bytes lie inside the storage and the
storage holds `len` bytes. -/
theorem reserve_wf (b : StrByteStream) (len : Nat) :
    (b.Reserve len).length ≤ (b.Reserve len).mData.length ∧
      len ≤ (b.Reserve len).mData.length := by
  simp only [StrByteStream.Reserve, List.length_append, List.length_replicate]
  omega

set_option maxRecDepth 100000 in
/-- C11 as stated fails: `DeliverStream` on the first segment `exFirst`
(control byte `0xC4`, bit 7 set) leaves the analyzer `exCleared`; the final
segment `exFinalLow` (control byte `0x44`, bit 7 clear) then completes the
fragment (`DNP3_Reassembler` returns 0) and `DeliverStream` passes the
direction flag `false`, bit 7 of the continuation packet, not of the first
packet. -/
theorem direction_counterexample :
    (exFirst.getD 3 0).testBit 7 = true ∧
    (DeliverStream Analyzer.init exFirst).map Delivery.st = some exCleared ∧
    (DNP3_Reassembler { exCleared with
        gDNP3Data := exCleared.gDNP3Data.Reserve exFinalLow.length } exFinalLow).map
        Result.ret = some 0 ∧
    (DeliverStream exCleared exFinalLow).map (fun d => d.forwarded.map Prod.fst) =
      some [false] := by
  decide

/-- C11, amended: in every call of `DeliverStream` on a chunk of at least 11
bytes, one buffer is passed to the downstream parser and its direction flag is
bit 7 of the control byte (byte 3) of the chunk of that call.  For a fragment
completed by a continuation packet this is the bit of that last packet, not of
the FIR = 1 packet; for a single-packet fragment it is the bit of that
packet. -/
theorem direction_marker (s : Analyzer) (data : List Nat) (h11 : 11 ≤ data.length) :
    ∃ r d, DNP3_Reassembler
        { s with gDNP3Data := s.gDNP3Data.Reserve data.length } data = some r ∧
      DeliverStream s data = some d ∧
      d.forwarded = [((data.getD 3 0).testBit 7, r.st.gDNP3Data.valid)] := by
  have hres := reserve_wf s.gDNP3Data data.length
  obtain ⟨r, hr⟩ := reassembler_total
    { s with gDNP3Data := s.gDNP3Data.Reserve data.length } data h11 hres.1 hres.2
  refine ⟨r, _, hr, deliverStream_eq s data r (by omega) hr, ?_⟩
  simp only [bit7_eq]

/-- C11 at a sample: the final segment `exFinalLow` delivered after a first
segment. -/
theorem direction_marker_witness :
    ∃ r d, DNP3_Reassembler
        { exCleared with gDNP3Data := exCleared.gDNP3Data.Reserve exFinalLow.length }
        exFinalLow = some r ∧
      DeliverStream exCleared exFinalLow = some d ∧
      d.forwarded = [((exFinalLow.getD 3 0).testBit 7, r.st.gDNP3Data.valid)] :=
  direction_marker exCleared exFinalLow (by decide)

/-! ## C12: the length while a fragment is gathered -/

/-- Whenever the extraction loop returns, `dnp3_i` has advanced by the number
of copied positions. -/
theorem extractLoop_count (data : List Nat) (len off : Nat) :
    ∀ (k i d : Nat) (buf : List Nat) (out : Nat × List Nat),
      extractLoop data len off k i d buf = some out →
      out.1 = d + (copiedIdx len i k).length := by
  intro k
  induction k with
  | zero =>
    intro i d buf out h
    simp only [extractLoop, Option.some.injEq] at h
    subst h
    simp [copiedIdx]
  | succ k ih =>
    intro i d buf out h
    rw [extractLoop] at h
    rw [copiedIdx_succ]
    by_cases hc : copied len i = true
    · rw [if_pos hc] at h ⊢
      simp only [Option.bind_eq_some] at h
      obtain ⟨b, _, buf2, _, h⟩ := h
      rw [ih (i + 1) (d + 1) buf2 out h, List.length_cons]
      omega
    · rw [if_neg hc] at h ⊢
      exact ih (i + 1) d buf out h

theorem extractLoop_count_le (data : List Nat) (off : Nat) (buf : List Nat)
    (out : Nat × List Nat)
    (h : extractLoop data data.length off (data.length - 10) 0 0 buf = some out) :
    out.1 ≤ data.length - 13 := by
  have h1 := extractLoop_count data data.length off _ _ _ _ _ h
  have h2 := length_copiedIdx_le data.length (data.length - 10) 0
  omega

theorem firstSegment_flag (s : Analyzer) (data : List Nat) (r : Result)
    (h : firstSegment s data = some r) : r.st.mEncounteredFirst = true := by
  unfold firstSegment at h
  simp only [] at h
  split at h
  · simp only [Option.some.injEq] at h
    subst h
    rfl
  · simp only [Option.bind_eq_some, Option.some.injEq] at h
    obtain ⟨_, _, _, _, h⟩ := h
    subst h
    rfl

theorem continuation_length (s : Analyzer) (data : List Nat) (f : Nat) (r : Result)
    (h : continuation s data f = some r) :
    r.st = s ∨ r.st.mEncounteredFirst = true ∨ r.st.gDNP3Data.length ≤ 65535 := by
  unfold continuation at h
  simp only [] at h
  split at h
  · simp only [Option.some.injEq] at h
    subst h
    exact Or.inl rfl
  · rename_i hflag
    have hflag2 : s.mEncounteredFirst = true := by simpa using hflag
    split at h
    · simp only [Option.some.injEq] at h
      subst h
      exact Or.inl rfl
    · simp only [Option.bind_eq_some] at h
      obtain ⟨_, _, out, _, h⟩ := h
      split at h
      · split at h
        · simp only [Option.some.injEq] at h
          subst h
          exact Or.inr (Or.inr (by simp [StrByteStream.Clear]))
        · rename_i hsz
          simp only [Option.bind_eq_some, Option.some.injEq] at h
          obtain ⟨_, _, _, _, h⟩ := h
          subst h
          refine Or.inr (Or.inr ?_)
          simp only [ge_iff_le, not_le] at hsz
          simp only []
          omega
      · simp only [Option.some.injEq] at h
        subst h
        exact Or.inr (Or.inl hflag2)

theorem singlePacket_length (s : Analyzer) (data : List Nat) (r : Result)
    (h : singlePacket s data = some r) :
    r.st.gDNP3Data.length ≤ data.length - 13 + 8 := by
  unfold singlePacket at h
  simp only [Option.bind_eq_some, Option.some.injEq] at h
  obtain ⟨_, _, out, hloop, _, _, h⟩ := h
  subst h
  have := extractLoop_count_le data 8 _ out hloop
  simp only []
  omega

/-- One call on a header-valid chunk of at most 292 bytes: the state is
unchanged, or a fragment is awaiting continuation, or the length is at most
65535. -/
theorem reassembler_length (s : Analyzer) (data : List Nat) (r : Result)
    (hv : headerValid data) (hlen : data.length ≤ 292)
    (h : DNP3_Reassembler s data = some r) :
    r.st = s ∨ r.st.mEncounteredFirst = true ∨ r.st.gDNP3Data.length ≤ 65535 := by
  rw [reassembler_dispatch s data hv] at h
  split at h
  · exact Or.inr (Or.inl (firstSegment_flag s data r h))
  · split at h
    · exact continuation_length s data _ r h
    · split at h
      · have := singlePacket_length s data r h
        exact Or.inr (Or.inr (by omega))
      · simp only [Option.some.injEq] at h
        subst h
        exact Or.inl rfl

/-- Middle segments fed to a fragment in progress: each returns 1 and adds 249
bytes, whatever the length reached. -/
theorem feed_middles (mids : List (List Nat)) :
    ∀ s : Analyzer, s.mEncounteredFirst = true → s.wf → (∀ p ∈ mids, isMiddle p) →
      ∃ s1, feed s mids = some (List.replicate mids.length 1, s1) ∧
        s1.mEncounteredFirst = true ∧ s1.wf ∧
        s1.gDNP3Data.length = s.gDNP3Data.length + 249 * mids.length := by
  induction mids with
  | nil =>
    intro s hflag hwf _
    exact ⟨s, rfl, hflag, hwf, by simp⟩
  | cons p mids ih =>
    intro s hflag hwf hm
    have hp := hm p (List.mem_cons_self _ _)
    obtain ⟨s1, he, hfl, hwf1, hl, _⟩ := middle_step s p hp hflag hwf
    obtain ⟨s2, he2, hfl2, hwf2, hl2⟩ := ih s1 hfl hwf1
      (fun q hq => hm q (List.mem_cons_of_mem _ hq))
    have hs := length_strip_292 p hp.2.2.2
    refine ⟨s2, ?_, hfl2, hwf2, ?_⟩
    · rw [feed, he]
      simp only [Option.some_bind, he2, List.length_cons, List.replicate_succ]
    · rw [hl2, hl, hs, List.length_cons]
      omega

set_option maxRecDepth 100000 in
/-- C12 as stated fails: from an idle analyzer with an empty buffer, the first
segment `exFirst` followed by 263 middle segments `exMiddle` (all header-valid,
292 bytes) leaves a fragment awaiting continuation whose length is
`257 + 263 * 249 = 65744`. -/
theorem length_ceiling_counterexample :
    (exIdle 292).gDNP3Data.length = 0 ∧ (exIdle 292).mEncounteredFirst = false ∧
    (headerValid exFirst ∧ exFirst.length ≤ 292) ∧
    (headerValid exMiddle ∧ exMiddle.length ≤ 292) ∧
    (feed (exIdle 292) (exFirst :: List.replicate 263 exMiddle)).map
        (fun o => (o.2.mEncounteredFirst, o.2.gDNP3Data.length)) =
      some (true, 65744) := by
  have hF : isFirst exFirst := by decide
  have hM : isMiddle exMiddle := by decide
  obtain ⟨sa, he, hfl, hwf, hl, _⟩ := first_step (exIdle 292) exFirst hF (by decide)
  obtain ⟨sb, he2, hfl2, _, hl2⟩ := feed_middles (List.replicate 263 exMiddle) sa hfl hwf
    (fun p hp => by rw [List.eq_of_mem_replicate hp]; exact hM)
  refine ⟨rfl, rfl, ⟨hF.1, by decide⟩, ⟨hM.1, by decide⟩, ?_⟩
  rw [feed, he]
  simp only [Option.some_bind, he2, Option.map_some', hfl2, hl2, hl, List.length_replicate]

/-- C12, amended: in every state reached from an idle analyzer with an empty
buffer by header-valid chunks of at most 292 bytes, the length of the buffer is
at most 65535 whenever no fragment is awaiting continuation
(`mEncounteredFirst` false).  While a fragment is awaiting continuation the
length is not checked; it is checked when the final segment arrives. -/
theorem length_ceiling (ps : List (List Nat)) :
    ∀ (s : Analyzer) (out : List Int × Analyzer),
      (s.mEncounteredFirst = false → s.gDNP3Data.length ≤ 65535) →
      (∀ p ∈ ps, headerValid p ∧ p.length ≤ 292) →
      feed s ps = some out →
      (out.2.mEncounteredFirst = false → out.2.gDNP3Data.length ≤ 65535) := by
  induction ps with
  | nil =>
    intro s out hinv _ h
    simp only [feed, Option.some.injEq] at h
    subst h
    exact hinv
  | cons p ps ih =>
    intro s out hinv hps h
    rw [feed] at h
    simp only [Option.bind_eq_some, Option.some.injEq] at h
    obtain ⟨r, hr, o2, ho2, h⟩ := h
    subst h
    obtain ⟨hv, hlen⟩ := hps p (List.mem_cons_self _ _)
    have hstep : r.st.mEncounteredFirst = false → r.st.gDNP3Data.length ≤ 65535 := by
      intro hf
      rcases reassembler_length s p r hv hlen hr with h | h | h
      · rw [h] at hf ⊢
        exact hinv hf
      · rw [hf] at h
        exact absurd h (by decide)
      · exact h
    exact ih r.st o2 hstep (fun q hq => hps q (List.mem_cons_of_mem _ hq)) ho2

set_option maxRecDepth 100000 in
/-- C12 at a sample: a first segment and a final segment fed to an idle
analyzer with an empty buffer. -/
theorem length_ceiling_witness :
    ∃ out, feed (exIdle 292) [exFirst, exFinal] = some out ∧
      (out.2.mEncounteredFirst = false → out.2.gDNP3Data.length ≤ 65535) := by
  have hs : (strip exFinal).length = 33 := length_strip_50 exFinal (by decide)
  obtain ⟨s1, he, _⟩ := first_then_final (exIdle 292) exFirst exFinal (by decide) (by decide)
    (by decide) (by rw [hs]; decide)
  exact ⟨_, he, length_ceiling [exFirst, exFinal] (exIdle 292) _ (fun _ => by decide)
    (by decide) he⟩

/-! ## C13: the header bytes while a fragment is awaited -/

/-- C13, at the failing input: on the analyzer as constructed, the 11-byte
chunk `exShortFirst` (header-valid, FIR = 1, FIN = 0, not 292 bytes) is
rejected with -4, yet `mEncounteredFirst` is true afterwards while the buffer
holds no byte at all, so it does not hold the 8 header bytes of any packet. -/
theorem awaiting_without_header :
    (DNP3_Reassembler Analyzer.init exShortFirst).map
        (fun r => (r.ret, r.st.mEncounteredFirst, r.st.gDNP3Data.length,
          r.st.gDNP3Data.valid)) =
      some (-4, true, 0, []) := by
  decide

theorem getD_valid_append (v bs : List Nat) (i : Nat) (h : i < v.length) :
    (v ++ bs).getD i 0 = v.getD i 0 := by
  simp [List.getElem?_append_left h]

/-- The accepted transitions keep the header: a first segment or a
single-packet fragment `p` leaves the header of `p`; a middle or a final
segment leaves the header that was there. -/
theorem header_kept (s : Analyzer) (p q : List Nat) :
    (isFirst p → 292 ≤ s.gDNP3Data.mData.length →
      ∃ s1, DNP3_Reassembler s p = some ⟨1, [], s1⟩ ∧ holdsHeader p s1) ∧
    (isMiddle p → s.mEncounteredFirst = true → holdsHeader q s →
      ∃ s1, DNP3_Reassembler s p = some ⟨1, [], s1⟩ ∧ holdsHeader q s1) ∧
    (isFinal p → s.mEncounteredFirst = true → holdsHeader q s →
      s.gDNP3Data.length + (strip p).length < 65536 →
      ∃ s1, DNP3_Reassembler s p = some ⟨0, [], s1⟩ ∧ holdsHeader q s1) := by
  refine ⟨?_, ?_, ?_⟩
  · intro hp hcap
    obtain ⟨s1, he, _, hwf, hl, hval⟩ := first_step s p hp hcap
    have hlen := hp.2.2.2
    refine ⟨s1, he, by omega, hwf, ?_⟩
    intro i hi
    have hi8 : i < 8 := by
      simp only [List.mem_cons, List.mem_singleton, List.not_mem_nil, or_false] at hi
      omega
    rw [hval, getD_valid_append _ _ i (by rw [List.length_take]; omega)]
    simp [List.getElem?_take_of_lt hi8]
  · intro hp hflag hq
    obtain ⟨h8, hwf, hb⟩ := hq
    obtain ⟨s1, he, _, hwf1, hl, hval⟩ := middle_step s p hp hflag hwf
    have hvl := length_valid s hwf
    refine ⟨s1, he, by omega, hwf1, ?_⟩
    intro i hi
    have hi8 : i < 8 := by
      simp only [List.mem_cons, List.mem_singleton, List.not_mem_nil, or_false] at hi
      omega
    rw [hval, getD_valid_append _ _ i (by omega)]
    exact hb i hi
  · intro hp hflag hq hsize
    obtain ⟨h8, hwf, hb⟩ := hq
    obtain ⟨s1, he, _, hwf1, hl, hval, _⟩ := final_step s p hp hflag hwf hsize
    have hvl := length_valid s hwf
    refine ⟨s1, he, by omega, hwf1, ?_⟩
    intro i hi
    have hi8 : i < 8 ∧ i ≠ 2 ∧ i ≠ 3 := by
      simp only [List.mem_cons, List.mem_singleton, List.not_mem_nil, or_false] at hi
      omega
    rw [hval, List.getD_eq_getElem?_getD, List.getElem?_set_ne (by omega),
      List.getElem?_set_ne (by omega), ← List.getD_eq_getElem?_getD,
      getD_valid_append _ _ i (by omega)]
    exact hb i hi

/-! ## C14: a first segment of the wrong size -/

set_option maxRecDepth 100000 in
/-- C14, at the failing input: on an idle analyzer with an empty buffer (and
50 bytes of storage), the 11-byte chunk `exShortFirst` (header-valid, FIR = 1,
FIN = 0, not 292 bytes) returns -4 and leaves the buffer as it was but sets
`mEncounteredFirst`; the header-valid final segment `exFinal` (FIR = 0)
processed directly afterwards is not rejected with -5: it returns 0 and its 33
payload bytes become the buffer. -/
theorem rejected_first_sets_flag :
    (DNP3_Reassembler (exIdle 50) exShortFirst).map
        (fun r => (r.ret, r.st.gDNP3Data, r.st.mEncounteredFirst)) =
      some (-4, (exIdle 50).gDNP3Data, true) ∧
    (feed (exIdle 50) [exShortFirst, exFinal]).map
        (fun o => (o.1, o.2.mEncounteredFirst, o.2.gDNP3Data.length)) =
      some ([-4, 0], false, 33) := by
  decide

/-! ## C15: the accesses of the extraction loop -/

/-- C15: for every chunk of `len ≥ 11` bytes, the positions `i` at which the
extraction loop copies satisfy `i + 10 < len`, and there are at most
`len - 13` of them (none when `len < 13`).  So with `off = 8` and a buffer of
`len` bytes (first-segment and single-packet branches), and with
`off = formerLen` and a buffer of `len + formerLen` bytes (continuation
branch), the loop runs without any access out of range, and the final
`dnp3_i` (one more than the last index written, less `off`) is at most
`len - 13`, so every index written is below the size of the buffer. -/
theorem extraction_in_bounds (data : List Nat) (h11 : 11 ≤ data.length) :
    (∀ i ∈ copiedIdx data.length 0 (data.length - 10), i + 10 < data.length) ∧
    (copiedIdx data.length 0 (data.length - 10)).length ≤ data.length - 13 ∧
    (∀ buf : List Nat, buf.length = data.length →
      ∃ out, extractLoop data data.length 8 (data.length - 10) 0 0 buf = some out ∧
        out.1 = (copiedIdx data.length 0 (data.length - 10)).length ∧
        out.1 + 8 < data.length ∧ out.2.length = buf.length) ∧
    (∀ (buf : List Nat) (formerLen : Nat), buf.length = data.length + formerLen →
      ∃ out, extractLoop data data.length formerLen (data.length - 10) 0 0 buf = some out ∧
        out.1 = (copiedIdx data.length 0 (data.length - 10)).length ∧
        out.1 + formerLen < data.length + formerLen ∧ out.2.length = buf.length) := by
  have hcnt := length_copiedIdx_le data.length (data.length - 10) 0
  have hs : (strip data).length = (copiedIdx data.length 0 (data.length - 10)).length := by
    rw [← copiedBytes_eq_strip, length_copiedBytes]
  refine ⟨?_, by omega, ?_, ?_⟩
  · intro i hi
    have := (List.mem_filter.mp hi).1
    rw [List.mem_range'_1] at this
    omega
  · intro buf hbuf
    refine ⟨_, extractLoop_strip data 8 buf (by omega), hs, by omega, ?_⟩
    exact length_overwrite buf 8 (strip data) (by omega)
  · intro buf formerLen hbuf
    refine ⟨_, extractLoop_strip data formerLen buf (by omega), hs, by omega, ?_⟩
    exact length_overwrite buf formerLen (strip data) (by omega)

/-- C15 at a sample: the 50-byte chunk `exFinal`. -/
theorem extraction_in_bounds_witness :
    (∀ i ∈ copiedIdx exFinal.length 0 (exFinal.length - 10), i + 10 < exFinal.length) ∧
    (copiedIdx exFinal.length 0 (exFinal.length - 10)).length ≤ exFinal.length - 13 ∧
    (∀ buf : List Nat, buf.length = exFinal.length →
      ∃ out, extractLoop exFinal exFinal.length 8 (exFinal.length - 10) 0 0 buf = some out ∧
        out.1 = (copiedIdx exFinal.length 0 (exFinal.length - 10)).length ∧
        out.1 + 8 < exFinal.length ∧ out.2.length = buf.length) ∧
    (∀ (buf : List Nat) (formerLen : Nat), buf.length = exFinal.length + formerLen →
      ∃ out, extractLoop exFinal exFinal.length formerLen (exFinal.length - 10) 0 0 buf =
          some out ∧
        out.1 = (copiedIdx exFinal.length 0 (exFinal.length - 10)).length ∧
        out.1 + formerLen < exFinal.length + formerLen ∧ out.2.length = buf.length) :=
  extraction_in_bounds exFinal (by decide)

/-! ## C16: a new first segment -/

/-- C16: for every state (idle or awaiting, any buffer content, with storage
for the chunk) and every header-valid first segment (FIR = 1, FIN = 0, 292
bytes), `DNP3_Reassembler` returns 1, sets `mEncounteredFirst`, and leaves a
fragment of 257 bytes: bytes 0..7 of the packet followed by its stripped
payload.  The same packet leaves the same valid bytes from any other state
`s2`, so no byte of an earlier fragment survives. -/
theorem first_segment_restarts (s s2 : Analyzer) (p : List Nat) (hp : isFirst p)
    (hcap : 292 ≤ s.gDNP3Data.mData.length) (hcap2 : 292 ≤ s2.gDNP3Data.mData.length) :
    ∃ s1 s3, DNP3_Reassembler s p = some ⟨1, [], s1⟩ ∧ s1.mEncounteredFirst = true ∧
      s1.gDNP3Data.length = 257 ∧ s1.gDNP3Data.valid = p.take 8 ++ strip p ∧
      (p.take 8).length = 8 ∧ (strip p).length = 249 ∧
      DNP3_Reassembler s2 p = some ⟨1, [], s3⟩ ∧
      s3.gDNP3Data.valid = s1.gDNP3Data.valid ∧
      s3.gDNP3Data.length = s1.gDNP3Data.length := by
  obtain ⟨s1, he, hfl, _, hl, hval⟩ := first_step s p hp hcap
  obtain ⟨s3, he3, _, _, hl3, hval3⟩ := first_step s2 p hp hcap2
  have hlen := hp.2.2.2
  refine ⟨s1, s3, he, hfl, hl, hval, ?_, length_strip_292 p hlen, he3, ?_, ?_⟩
  · rw [List.length_take]; omega
  · rw [hval, hval3]
  · rw [hl, hl3]

set_option maxRecDepth 100000 in
/-- C16 at a sample: `exFirst` arriving at an idle analyzer and at one that
awaits continuation with 300 bytes gathered. -/
theorem first_segment_restarts_witness :
    ∃ s1 s3, DNP3_Reassembler (exIdle 292) exFirst = some ⟨1, [], s1⟩ ∧
      s1.mEncounteredFirst = true ∧
      s1.gDNP3Data.length = 257 ∧ s1.gDNP3Data.valid = exFirst.take 8 ++ strip exFirst ∧
      (exFirst.take 8).length = 8 ∧ (strip exFirst).length = 249 ∧
      DNP3_Reassembler (exAwaiting 300) exFirst = some ⟨1, [], s3⟩ ∧
      s3.gDNP3Data.valid = s1.gDNP3Data.valid ∧
      s3.gDNP3Data.length = s1.gDNP3Data.length :=
  first_segment_restarts (exIdle 292) (exAwaiting 300) exFirst (by decide) (by decide)
    (by decide)

end DNP3
